import Mathlib

/-!
Verification development for the websocket-server repository.

The repository is a Socket.IO relay bridging Redis pub/sub channels to
room-based multicast.  We shallowly embed the modular implementation
(src/services/redis.js, src/services/broadcast.js,
src/services/connectionManager.js, src/handlers/socketHandlers.js,
src/utils/helpers.js) and the legacy entry point (server.js).

Modelling conventions:
* JavaScript values are modelled by the inductive JsValue; numbers are
  modelled as integers (no claim involves fractional numbers).  JS
  truthiness, String(...) coercion and property access are modelled
  explicitly.  Accessing a property of null/undefined throws a TypeError
  in JS; jsGetField returns none in that case and callers thread the
  exception to the surrounding try/catch.
* A raw Redis message is modelled by its JSON.parse result: some v when
  the payload is well-formed JSON (parsing to value v), none when
  JSON.parse would throw.
* The Socket.IO adapter keeps rooms in a Map from room name to the set
  of member socket ids, in insertion order; a room is removed from the
  Map as soon as its last member leaves.  We model it as an association
  list whose member lists are nonempty in well-formed states.
* Emissions (socket.emit, io.to(room).emit, io.emit,
  socket.broadcast.emit) are collected in order into a List Emission
  instead of performing IO.
-/

/-- A JavaScript value, as far as this code base manipulates them.
Numbers are modelled as integers; parseInt NaN results are modelled as
Option.none at the use site. -/
inductive JsValue where
  | null
  | undefined
  | bool (b : Bool)
  | num (n : Int)
  | str (s : String)
  | obj (fields : List (String × JsValue))
deriving Repr, BEq

/-- JS truthiness: null, undefined, false, 0 and the empty string are
falsy; every other value this model covers is truthy. -/
def jsTruthy : JsValue → Bool
  | .null => false
  | .undefined => false
  | .bool b => b
  | .num n => n != 0
  | .str s => s ≠ ""
  | .obj _ => true

/-- JS String(...) coercion, as used by template literals. -/
def jsToString : JsValue → String
  | .null => "null"
  | .undefined => "undefined"
  | .bool b => if b then "true" else "false"
  | .num n => toString n
  | .str s => s
  | .obj _ => "[object Object]"

/-- Property access v[k].  Returns none when the access would throw a
TypeError (base value null or undefined); returns some .undefined when
the property is merely absent. -/
def jsGetField : JsValue → String → Option JsValue
  | .null, _ => none
  | .undefined, _ => none
  | .obj fields, k =>
      match fields.find? (fun p => p.1 = k) with
      | some p => some p.2
      | none => some .undefined
  | _, _ => some .undefined

/-- JS String.prototype.startsWith, modelled on the character list. -/
def jsStartsWith (s p : String) : Bool :=
  p.toList.isPrefixOf s.toList

/-- roomName.replace applied to a name known to carry the six-character
group_ tag: removing the first occurrence removes that leading tag. -/
def dropGroupTag (r : String) : String :=
  String.mk (r.toList.drop 6)

/-- A hexadecimal digit value, for the parseInt 0x-radix case. -/
def hexDigitVal (c : Char) : Option Nat :=
  if c.isDigit then some (c.toNat - 48)
  else if 'a' ≤ c ∧ c ≤ 'f' then some (c.toNat - 87)
  else if 'A' ≤ c ∧ c ≤ 'F' then some (c.toNat - 55)
  else none

/-- JS parseInt(s) with no explicit radix: skip whitespace, optional
sign, optional 0x/0X switching to base 16, then the maximal run of
digits of the radix.  none models the NaN result. -/
def jsParseInt (s : String) : Option Int :=
  let cs := s.toList.dropWhile Char.isWhitespace
  let (neg, cs₁) :=
    match cs with
    | '-' :: t => (true, t)
    | '+' :: t => (false, t)
    | _ => (false, cs)
  let (hex, cs₂) :=
    match cs₁ with
    | '0' :: 'x' :: t => (true, t)
    | '0' :: 'X' :: t => (true, t)
    | _ => (false, cs₁)
  let ds := cs₂.takeWhile (fun c => if hex then (hexDigitVal c).isSome else c.isDigit)
  if ds.isEmpty then none
  else
    let base : Nat := if hex then 16 else 10
    let mag : Nat := ds.foldl (fun a c => a * base + ((hexDigitVal c).getD 0)) 0
    some (if neg then -(mag : Int) else (mag : Int))

/-- A client-visible send performed by the server.  toSocket models
socket.emit (to the requesting connection only), toRoom models
io.to(room).emit, toAll models io.emit, broadcastExcept models
socket.broadcast.emit (all connected sockets except the sender). -/
inductive Emission where
  | toSocket (sid : String) (event : String) (payload : JsValue)
  | toRoom (room : String) (event : JsValue) (payload : JsValue)
  | toAll (event : String) (payload : JsValue)
  | broadcastExcept (sid : String) (event : String) (args : List JsValue)
deriving Repr, BEq

/-- Connection metadata kept by ConnectionManager.addConnection.
Timestamps are modelled by a Nat logical clock. -/
structure ConnInfo where
  connectedAt : Nat
  ipAddress : String
deriving Repr, BEq

/-- Association lists standing in for JS Maps (which iterate in
insertion order).  Rooms maps a room name to its member socket ids. -/
abbrev Rooms := List (String × List String)

/-- Server state: the Socket.IO adapter rooms, the ConnectionManager
permalink map (keyed by String(groupId)), the active connections map,
and a logical clock supplying timestamps. -/
structure ServerState where
  rooms : Rooms
  permalinks : List (String × JsValue)
  activeConnections : List (String × ConnInfo)
  clock : Nat
deriving Repr, BEq

/-- Lookup in a JS Map modelled as an association list (keys are unique
in well-formed states; lookup takes the first binding). -/
def alistGet {α : Type} (l : List (String × α)) (k : String) : Option α :=
  match l.find? (fun p => p.1 = k) with
  | some p => some p.2
  | none => none

/-- Map.set: overwrite the existing binding in place, else append
(JS Maps keep insertion order and append new keys at the end). -/
def alistSet {α : Type} : List (String × α) → String → α → List (String × α)
  | [], k, v => [(k, v)]
  | (k', v') :: rest, k, v =>
      if k' = k then (k', v) :: rest else (k', v') :: alistSet rest k v

/-- Map.delete: remove the binding for k, if any. -/
def alistDel {α : Type} : List (String × α) → String → List (String × α)
  | [], _ => []
  | (k', v') :: rest, k =>
      if k' = k then rest else (k', v') :: alistDel rest k

/-- Member list of a room in the adapter (empty when the room is not
materialized), mirroring io.sockets.adapter.rooms.get(r). -/
def roomMembers (st : ServerState) (r : String) : List String :=
  (alistGet st.rooms r).getD []

/-- helpers.js getRoomClientCount: io.sockets.adapter.rooms.get(roomName)?.size || 0. -/
def getRoomClientCount (st : ServerState) (roomName : String) : Nat :=
  (roomMembers st roomName).length

/-- Adapter action of socket.join(r): add sid to the room, creating it
(at the end of the Map) when absent; a no-op if sid is already a member. -/
def socketJoin : Rooms → String → String → Rooms
  | [], sid, r => [(r, [sid])]
  | (k, ms) :: rest, sid, r =>
      if k = r then (k, if sid ∈ ms then ms else ms ++ [sid]) :: rest
      else (k, ms) :: socketJoin rest sid r

/-- Adapter action of socket.leave(r): remove sid from the room and
delete the room from the Map when it becomes empty. -/
def socketLeave : Rooms → String → String → Rooms
  | [], _, _ => []
  | (k, ms) :: rest, sid, r =>
      if k = r then
        (if ms.erase sid = [] then rest else (k, ms.erase sid) :: rest)
      else (k, ms) :: socketLeave rest sid r

/-- The rooms a socket is currently a member of (socket.rooms). -/
def sidRooms (rooms : Rooms) (sid : String) : List String :=
  (rooms.filter (fun p => sid ∈ p.2)).map (fun p => p.1)

/-- Adapter action of a disconnect: the socket leaves every room it was
in (rooms emptied by this are removed), before the disconnect handler
runs. -/
def removeSidFromAllRooms (rooms : Rooms) (sid : String) : Rooms :=
  rooms.filterMap (fun p =>
    if p.2.erase sid = [] then none else some (p.1, p.2.erase sid))

/-- The names of the group rooms that currently contain sid. -/
def groupRoomsOf (st : ServerState) (sid : String) : List String :=
  ((st.rooms.filter (fun p => jsStartsWith p.1 "group_" && decide (sid ∈ p.2))).map (fun p => p.1))

/- ===== helpers.js ===== -/

/-- The literal searched for by the regex antrian\.group\.(\d+). -/
def groupChanLit : List Char := "antrian.group.".toList

/-- One regex-engine step per start position: at each position try to
match the literal followed by at least one digit; on success capture the
maximal digit run, else advance one character. -/
def extractGroupIdAux : List Char → Option (List Char)
  | [] => none
  | c :: rest =>
      if groupChanLit.isPrefixOf (c :: rest)
          && (match (c :: rest).drop 14 with
              | d :: _ => d.isDigit
              | [] => false) then
        some (((c :: rest).drop 14).takeWhile Char.isDigit)
      else extractGroupIdAux rest

/-- helpers.js extractGroupIdFromChannel:
channel.match(/antrian\.group\.(\d+)/) returning the first capture, or
null when the regex does not match anywhere in the string. -/
def extractGroupIdFromChannel (channel : String) : Option String :=
  (extractGroupIdAux channel.toList).map (fun ds => String.mk ds)

/- ===== broadcast.js ===== -/

/-- BroadcastService.broadcastToClients: resolve room group_<groupId>,
return without sending when the room has no clients, else emit the bare
event with the data to the room. -/
def broadcastToClients (st : ServerState) (_channel : String) (event : JsValue)
    (data : JsValue) (groupId : String) : List Emission :=
  let roomName := "group_" ++ groupId
  if getRoomClientCount st roomName = 0 then []
  else [.toRoom roomName event data]

/-- BroadcastService.broadcastToPrescriptionRoom: return without
sending when the prescription room has no clients, else emit
channel:event with the data to the prescription room. -/
def broadcastToPrescriptionRoom (st : ServerState) (channel : String)
    (event : String) (data : JsValue) : List Emission :=
  let roomName := "prescription"
  if getRoomClientCount st roomName = 0 then []
  else [.toRoom roomName (.str (channel ++ ":" ++ event)) data]

/- ===== redis.js ===== -/

/-- The decoded envelope carried inside a Redis message body. -/
structure Envelope where
  event : JsValue
  data : JsValue
deriving Repr, BEq

/-- Lines 48-54 of RedisService.processMessage: JSON.parse the raw
payload (none models a parse failure caught by the try/catch), then
reject when !data.event || !data.data.  Field access on a null or
undefined payload throws; the exception is caught by the same
try/catch, so it also yields none. -/
def decodeEnvelope (parsed : Option JsValue) : Option Envelope :=
  match parsed with
  | none => none
  | some v =>
      match jsGetField v "event", jsGetField v "data" with
      | some ev, some d =>
          if jsTruthy ev && jsTruthy d then some ⟨ev, d⟩ else none
      | _, _ => none

/-- RedisService.handleGeneralMessage: prescription-prefixed events go
to the prescription room with the channel-prefixed event name;
otherwise non-antrian channels are broadcast to all clients; antrian
channels are dropped.  event.startsWith on a non-string event throws a
TypeError, caught by processMessage's catch, producing no sends. -/
def handleGeneralMessage (st : ServerState) (channel : String)
    (env : Envelope) : List Emission :=
  match env.event with
  | .str e =>
      if jsStartsWith e "prescription." then
        broadcastToPrescriptionRoom st channel e env.data
      else if !(jsStartsWith channel "antrian.") then
        [.toAll (channel ++ ":" ++ e) env.data]
      else []
  | _ => []

/-- RedisService.processMessage: decode the envelope; on the antrian
subscription extract the group id from the channel and multicast to the
group room, on the wildcard subscription delegate to
handleGeneralMessage.  All exceptions are caught, yielding no sends. -/
def processMessage (st : ServerState) (message : Option JsValue)
    (channel : String) (isAntrian : Bool) : List Emission :=
  match decodeEnvelope message with
  | none => []
  | some env =>
      if isAntrian then
        match extractGroupIdFromChannel channel with
        | none => []
        | some groupId => broadcastToClients st channel env.event env.data groupId
      else handleGeneralMessage st channel env

/-- The combined effect of one Redis publish across both pattern
subscriptions set up by RedisService.setupListeners: the glob pattern
antrian.* matches exactly the channels starting with "antrian." (its *
also matches the empty suffix), and * matches every channel; the
antrian subscription was registered first. -/
def redisPublish (st : ServerState) (message : Option JsValue)
    (channel : String) : List Emission :=
  (if jsStartsWith channel "antrian." then processMessage st message channel true
   else [])
  ++ processMessage st message channel false

/-- The sends of an emission list directed at a given room. -/
def roomSends (es : List Emission) (r : String) : List Emission :=
  es.filter (fun e =>
    match e with
    | .toRoom r' _ _ => r' = r
    | _ => false)

/-- The global (io.emit) sends of an emission list. -/
def globalSends (es : List Emission) : List Emission :=
  es.filter (fun e =>
    match e with
    | .toAll _ _ => true
    | _ => false)

/-- The sockets that receive a given emission in a given state:
io.to(room).emit reaches the room members, io.emit reaches every
connected socket, socket.emit only the target, socket.broadcast.emit
everyone but the sender. -/
def emissionRecipients (st : ServerState) : Emission → List String
  | .toSocket sid _ _ => [sid]
  | .toRoom r _ _ => roomMembers st r
  | .toAll _ _ => st.activeConnections.map (fun p => p.1)
  | .broadcastExcept sid _ _ =>
      (st.activeConnections.map (fun p => p.1)).filter (fun s => s ≠ sid)

/- ===== connectionManager.js ===== -/

/-- ConnectionManager.addConnection: record id, connect timestamp and
origin address. -/
def addConnection (st : ServerState) (sid ip : String) : ServerState :=
  { st with
    activeConnections :=
      alistSet st.activeConnections sid ⟨st.clock, ip⟩ }

/-- ConnectionManager.removeConnection. -/
def removeConnection (st : ServerState) (sid : String) : ServerState :=
  { st with activeConnections := alistDel st.activeConnections sid }

/-- ConnectionManager.setGroupPermalink: key String(groupId), value the
supplied group name. -/
def setGroupPermalink (st : ServerState) (groupId : JsValue)
    (groupName : JsValue) : ServerState :=
  { st with permalinks := alistSet st.permalinks (jsToString groupId) groupName }

/-- ConnectionManager.removeGroupPermalink. -/
def removeGroupPermalink (st : ServerState) (groupId : JsValue) : ServerState :=
  { st with permalinks := alistDel st.permalinks (jsToString groupId) }

/-- ConnectionManager.cleanupEmptyGroups: scan the currently
materialized rooms, and for every group_ room with zero members delete
the permalink keyed by the room name with its group_ tag removed
(roomName.replace removes the first occurrence, i.e. the leading six
characters of a name that starts with group_). -/
def cleanupEmptyGroups (st : ServerState) : ServerState :=
  let groupRooms := (st.rooms.map (fun p => p.1)).filter (fun r => jsStartsWith r "group_")
  { st with
    permalinks :=
      groupRooms.foldl
        (fun pl roomName =>
          if getRoomClientCount st roomName = 0 then alistDel pl (dropGroupTag roomName)
          else pl)
        st.permalinks }

/-- Per-member metadata in a snapshot entry (connection?.connectedAt is
undefined when the socket is not in the activeConnections map). -/
structure ClientDetail where
  socketId : String
  connectedAt : Option Nat
  ipAddress : Option String
deriving Repr, BEq

/-- One entry of ConnectionManager.getActiveDisplays.  groupNumber is
parseInt(groupId); none models NaN. -/
structure DisplayEntry where
  groupNumber : Option Int
  permalink : JsValue
  roomName : String
  clientCount : Nat
  clients : List ClientDetail
  isActive : Bool
  lastUpdated : Nat
deriving Repr, BEq

/-- The sort comparator (a, b) => a.groupNumber - b.groupNumber turned
into a boolean "not greater" test: when either operand is NaN the
subtraction is NaN, which ECMAScript SortCompare maps to +0, i.e. the
elements compare as equal. -/
def displayLe (a b : Option Int) : Bool :=
  match a, b with
  | some m, some n => m - n ≤ 0
  | _, _ => true

/-- Stable insertion used to model Array.prototype.sort (required to be
stable by ES2019): a later element is inserted after all earlier
elements that do not compare greater than it. -/
def stableInsert {α : Type} (le : α → α → Bool) (x : α) : List α → List α
  | [] => [x]
  | y :: ys => if le y x then y :: stableInsert le x ys else x :: y :: ys

/-- Stable sort processing the array left to right. -/
def stableSortBy {α : Type} (le : α → α → Bool) (l : List α) : List α :=
  l.foldl (fun acc x => stableInsert le x acc) []

/-- One getActiveDisplays entry for a materialized group_ room:
groupNumber := parseInt of the id, permalink := the stored one when
truthy else the synthesized /display/group/<id>, member count,
per-member metadata.  The .filter(Boolean) of the source on the client
detail objects is a no-op (objects are truthy) and is not
reproduced. -/
def displayEntryOf (st : ServerState) (roomName : String) : DisplayEntry :=
  let groupId := dropGroupTag roomName
  let members := roomMembers st roomName
  let clients := members.map (fun sid =>
    let conn := alistGet st.activeConnections sid
    ClientDetail.mk sid (conn.map (fun c => c.connectedAt)) (conn.map (fun c => c.ipAddress)))
  let stored := alistGet st.permalinks groupId
  let actualPermalink :=
    match stored with
    | some v => if jsTruthy v then v else .str ("/display/group/" ++ groupId)
    | none => .str ("/display/group/" ++ groupId)
  DisplayEntry.mk (jsParseInt groupId) actualPermalink roomName members.length
    clients (members.length > 0) st.clock

/-- ConnectionManager.getActiveDisplays: map every materialized group_
room to its entry, keep only entries with members, and sort with the
comparator (a, b) => a.groupNumber - b.groupNumber. -/
def getActiveDisplays (st : ServerState) : List DisplayEntry :=
  let groupRooms := (st.rooms.map (fun p => p.1)).filter (fun r => jsStartsWith r "group_")
  stableSortBy (fun a b => displayLe a.groupNumber b.groupNumber)
    ((groupRooms.map (displayEntryOf st)).filter (fun e => e.isActive))

/- ===== socketHandlers.js ===== -/

/-- SocketHandlers.handleJoinGroup.  Destructuring {groupId, groupName}
from a null/undefined payload throws, caught by the handler's
try/catch, which emits the generic failure message.  A falsy groupId is
rejected with the typed client error before any state change.
Otherwise: store the permalink when groupName is truthy, leave every
other group_ room the socket is in (the loop skips the socket's own
id room), join group_<groupId>, and confirm to the requester only. -/
def handleJoinGroup (st : ServerState) (sid : String) (data : JsValue) :
    ServerState × List Emission :=
  match jsGetField data "groupId", jsGetField data "groupName" with
  | some groupId, some groupName =>
      if !(jsTruthy groupId) then
        (st, [.toSocket sid "error" (.obj [("message", .str "Group ID is required")])])
      else
        let roomName := "group_" ++ jsToString groupId
        let st₁ :=
          if jsTruthy groupName then setGroupPermalink st groupId groupName else st
        let prevGroupRooms :=
          (sidRooms st₁.rooms sid).filter
            (fun r => r ≠ sid && jsStartsWith r "group_")
        let rooms₂ := prevGroupRooms.foldl (fun rs r => socketLeave rs sid r) st₁.rooms
        let rooms₃ := socketJoin rooms₂ sid roomName
        ({ st₁ with rooms := rooms₃ },
         [.toSocket sid "joined-group"
            (.obj [("groupId", groupId), ("groupName", groupName),
                   ("roomName", .str roomName),
                   ("timestamp", .num st.clock)])])
  | _, _ =>
      (st, [.toSocket sid "error" (.obj [("message", .str "Failed to join group")])])

/-- SocketHandlers.handleLeaveGroup: leave group_<groupId> (no presence
check on groupId), and when the room is left with zero clients delete
the permalink for String(groupId); confirm to the requester. -/
def handleLeaveGroup (st : ServerState) (sid : String) (data : JsValue) :
    ServerState × List Emission :=
  match jsGetField data "groupId" with
  | some groupId =>
      let roomName := "group_" ++ jsToString groupId
      let rooms' := socketLeave st.rooms sid roomName
      let st₁ := { st with rooms := rooms' }
      let st₂ :=
        if getRoomClientCount st₁ roomName = 0 then removeGroupPermalink st₁ groupId
        else st₁
      (st₂,
       [.toSocket sid "left-group"
          (.obj [("groupId", groupId), ("roomName", .str roomName),
                 ("timestamp", .num st.clock)])])
  | none =>
      (st, [.toSocket sid "error" (.obj [("message", .str "Failed to leave group")])])

/-- SocketHandlers.handleJoinPrescription. -/
def handleJoinPrescription (st : ServerState) (sid : String) :
    ServerState × List Emission :=
  ({ st with rooms := socketJoin st.rooms sid "prescription" },
   [.toSocket sid "prescription-joined"
      (.obj [("message", .str "Successfully joined prescription room"),
             ("socketId", .str sid), ("roomName", .str "prescription"),
             ("timestamp", .num st.clock)])])

/-- SocketHandlers.handleLeavePrescription. -/
def handleLeavePrescription (st : ServerState) (sid : String) :
    ServerState × List Emission :=
  ({ st with rooms := socketLeave st.rooms sid "prescription" },
   [.toSocket sid "prescription-left"
      (.obj [("message", .str "Successfully left prescription room"),
             ("socketId", .str sid), ("roomName", .str "prescription"),
             ("timestamp", .num st.clock)])])

/-- A connect: Socket.IO makes the socket join the room named by its
own id, then SocketHandlers.handleConnection records the connection.
The clock advances so later connects get later timestamps. -/
def handleConnect (st : ServerState) (sid ip : String) :
    ServerState × List Emission :=
  let st₁ := { st with rooms := socketJoin st.rooms sid sid }
  let st₂ := addConnection st₁ sid ip
  ({ st₂ with clock := st₂.clock + 1 }, [])

/-- A disconnect: Socket.IO removes the socket from every room before
the disconnect listener runs; the listener then calls
cleanupEmptyGroups and removeConnection. -/
def handleDisconnect (st : ServerState) (sid : String) :
    ServerState × List Emission :=
  let st₁ := { st with rooms := removeSidFromAllRooms st.rooms sid }
  let st₂ := cleanupEmptyGroups st₁
  (removeConnection st₂ sid, [])

/-- SocketHandlers ping handling: reply pong to the requester only. -/
def handlePing (st : ServerState) (sid : String) :
    ServerState × List Emission :=
  (st, [.toSocket sid "pong" (.obj [("timestamp", .num st.clock)])])

/-- The client-driven operations of the modular server. -/
inductive ClientOp where
  | connect (sid ip : String)
  | joinGroup (sid : String) (data : JsValue)
  | leaveGroup (sid : String) (data : JsValue)
  | joinPrescription (sid : String)
  | leavePrescription (sid : String)
  | ping (sid : String)
  | disconnect (sid : String)
deriving Repr

/-- Dispatch one operation to its handler. -/
def stepOp (st : ServerState) : ClientOp → ServerState × List Emission
  | .connect sid ip => handleConnect st sid ip
  | .joinGroup sid data => handleJoinGroup st sid data
  | .leaveGroup sid data => handleLeaveGroup st sid data
  | .joinPrescription sid => handleJoinPrescription st sid
  | .leavePrescription sid => handleLeavePrescription st sid
  | .ping sid => handlePing st sid
  | .disconnect sid => handleDisconnect st sid

/-- The socket id an operation acts for. -/
def opSid : ClientOp → String
  | .connect sid _ => sid
  | .joinGroup sid _ => sid
  | .leaveGroup sid _ => sid
  | .joinPrescription sid => sid
  | .leavePrescription sid => sid
  | .ping sid => sid
  | .disconnect sid => sid

/-- State reached after a sequence of operations. -/
def runOps (st : ServerState) (ops : List ClientOp) : ServerState :=
  ops.foldl (fun s op => (stepOp s op).1) st

/-- The empty server at startup. -/
def initState : ServerState := ⟨[], [], [], 0⟩

/-- Socket.IO generates socket ids that never carry the group_ room
tag; operation sequences whose ids satisfy this are the realizable
ones. -/
def GoodOps (ops : List ClientOp) : Prop :=
  ∀ op ∈ ops, jsStartsWith (opSid op) "group_" = false

/- ===== server.js (legacy entry point) ===== -/

namespace Legacy

/-- Connection metadata of the legacy entry point (it also tracks a
last-activity timestamp). -/
structure Conn where
  connectedAt : Nat
  lastActivity : Nat
  ipAddress : String
deriving Repr, BEq

/-- Legacy server state: adapter rooms, the activeConnections map and a
logical clock.  The legacy entry point keeps no permalink map. -/
structure State where
  rooms : Rooms
  activeConnections : List (String × Conn)
  clock : Nat
deriving Repr, BEq

/-- The onAny universal listener of server.js: refresh lastActivity for
the sender when tracked, and rebroadcast the event with the same
arguments to every other connected client. -/
def onAnyStep (st : State) (sid : String) (eventName : String)
    (args : List JsValue) : State × List Emission :=
  ({ st with
     activeConnections :=
       st.activeConnections.map (fun p =>
         if p.1 = sid then (p.1, { p.2 with lastActivity := st.clock }) else p) },
   [.broadcastExcept sid eventName args])

/-- The event-specific join-group handler of server.js (same membership
logic as the modular handler but with no permalink bookkeeping). -/
def joinGroupStep (st : State) (sid : String) (data : JsValue) :
    State × List Emission :=
  match jsGetField data "groupId", jsGetField data "groupName" with
  | some groupId, some groupName =>
      if !(jsTruthy groupId) then
        (st, [.toSocket sid "error" (.obj [("message", .str "Group ID is required")])])
      else
        let roomName := "group_" ++ jsToString groupId
        let prevGroupRooms :=
          (sidRooms st.rooms sid).filter (fun r => r ≠ sid && jsStartsWith r "group_")
        let rooms₂ := prevGroupRooms.foldl (fun rs r => socketLeave rs sid r) st.rooms
        ({ st with rooms := socketJoin rooms₂ sid roomName },
         [.toSocket sid "joined-group"
            (.obj [("groupId", groupId), ("groupName", groupName),
                   ("roomName", .str roomName), ("timestamp", .num st.clock)])])
  | _, _ =>
      (st, [.toSocket sid "error" (.obj [("message", .str "Failed to join group")])])

/-- The event-specific leave-group handler of server.js (no permalink
cleanup in the legacy entry point). -/
def leaveGroupStep (st : State) (sid : String) (data : JsValue) :
    State × List Emission :=
  match jsGetField data "groupId" with
  | some groupId =>
      let roomName := "group_" ++ jsToString groupId
      ({ st with rooms := socketLeave st.rooms sid roomName },
       [.toSocket sid "left-group"
          (.obj [("groupId", groupId), ("roomName", .str roomName),
                 ("timestamp", .num st.clock)])])
  | none =>
      (st, [.toSocket sid "error" (.obj [("message", .str "Failed to leave group")])])

/-- The event-specific handlers registered by server.js; events with no
registered listener have no event-specific effect.  The first argument
of the packet is the handler's data parameter (undefined when the
client sent none). -/
def specificStep (st : State) (sid : String) (eventName : String)
    (args : List JsValue) : State × List Emission :=
  match eventName with
  | "join-group" => joinGroupStep st sid (args.getD 0 .undefined)
  | "leave-group" => leaveGroupStep st sid (args.getD 0 .undefined)
  | "join-prescription" =>
      ({ st with rooms := socketJoin st.rooms sid "prescription" },
       [.toSocket sid "prescription-joined"
          (.obj [("message", .str "Successfully joined prescription room"),
                 ("socketId", .str sid), ("roomName", .str "prescription"),
                 ("timestamp", .num st.clock)])])
  | "leave-prescription" =>
      ({ st with rooms := socketLeave st.rooms sid "prescription" },
       [.toSocket sid "prescription-left"
          (.obj [("message", .str "Successfully left prescription room"),
                 ("socketId", .str sid), ("roomName", .str "prescription"),
                 ("timestamp", .num st.clock)])])
  | "ping" => (st, [.toSocket sid "pong" (.obj [("timestamp", .num st.clock)])])
  | _ => (st, [])

/-- Delivery of one inbound client packet in the legacy entry point:
Socket.IO invokes the catch-all onAny listeners before dispatching to
the event-specific listeners. -/
def dispatch (st : State) (sid : String) (eventName : String)
    (args : List JsValue) : State × List Emission :=
  let (st₁, es₁) := onAnyStep st sid eventName args
  let (st₂, es₂) := specificStep st₁ sid eventName args
  (st₂, es₁ ++ es₂)

end Legacy

/- ===== Spec-side (claim-side) definitions ===== -/

/-- Claim-side field validity, following the spec's words: the field is
neither absent nor null. -/
def specFieldOk (v : JsValue) (k : String) : Bool :=
  match jsGetField v k with
  | some .null => false
  | some .undefined => false
  | none => false
  | some _ => true

/-- Claim-side envelope validity, following the spec's words: the
payload is well-formed structured data and neither the event field nor
the data field is absent or null.  (Compare with decodeEnvelope, the
embedding of the source, which also rejects present falsy fields.) -/
def specEnvelopeOk (parsed : Option JsValue) : Bool :=
  match parsed with
  | none => false
  | some v => specFieldOk v "event" && specFieldOk v "data"

/-- Claim-side permalink invariant of C2: a permalink entry for G
exists exactly when room group_G currently has a member. -/
def PermalinkLifecycleInv (st : ServerState) : Prop :=
  ∀ g : String, (alistGet st.permalinks g).isSome = true ↔ roomMembers st ("group_" ++ g) ≠ []

/-- Claim-side invariant of C3: any two group rooms holding the same
connection coincide (membership in group rooms is at most one). -/
def AtMostOneGroup (st : ServerState) : Prop :=
  ∀ sid r₁ r₂, jsStartsWith r₁ "group_" = true → jsStartsWith r₂ "group_" = true →
    sid ∈ roomMembers st r₁ → sid ∈ roomMembers st r₂ → r₁ = r₂

/-- Claim-side ordering of C5: every entry precedes only entries whose
group identifier parses to a number at least as large; an entry whose
identifier has no numeric value cannot participate in an ascending
numeric order. -/
def numericLe (a b : Option Int) : Bool :=
  match a, b with
  | some m, some n => m ≤ n
  | _, _ => false

/-- A snapshot listing sorted ascending by numeric group identifier. -/
def SortedByNumericId (l : List DisplayEntry) : Prop :=
  l.Pairwise (fun a b => numericLe a.groupNumber b.groupNumber = true)

/-- Claim-side characterisation of the channels C10 talks about: the
text antrian.group. immediately followed by a digit occurs somewhere in
the channel. -/
def groupPatAt (cs : List Char) : Bool :=
  groupChanLit.isPrefixOf cs
    && (match cs.drop 14 with
        | d :: _ => d.isDigit
        | [] => false)

/-- The channel contains antrian.group.<digit> at some position. -/
def HasGroupChanPat (channel : String) : Prop :=
  ∃ n : Nat, groupPatAt (channel.toList.drop n) = true

/-- The room-eviction loop at the start of a join-group: leave every
group_ room the socket is in, other than the socket's own id room. -/
def evictGroups (rooms : Rooms) (sid : String) : Rooms :=
  ((sidRooms rooms sid).filter (fun r => r ≠ sid && jsStartsWith r "group_")).foldl
    (fun rs r => socketLeave rs sid r) rooms

/- ===== Infrastructure lemmas: association lists ===== -/

/-- Members of a room map, independently of the full server state. -/
def membersOf (rooms : Rooms) (r : String) : List String :=
  (alistGet rooms r).getD []

theorem roomMembers_def (st : ServerState) (r : String) :
    roomMembers st r = membersOf st.rooms r := rfl

theorem alistGet_nil {α : Type} (k : String) : alistGet ([] : List (String × α)) k = none := rfl

theorem alistGet_cons {α : Type} (k' : String) (v' : α) (rest : List (String × α)) (k : String) :
    alistGet ((k', v') :: rest) k = if k' = k then some v' else alistGet rest k := by
  simp only [alistGet, List.find?]
  by_cases h : k' = k <;> simp [h]

theorem alistGet_eq_none_iff {α : Type} (l : List (String × α)) (k : String) :
    alistGet l k = none ↔ k ∉ l.map Prod.fst := by
  induction l with
  | nil => simp [alistGet_nil]
  | cons p rest ih =>
      obtain ⟨k', v'⟩ := p
      rw [alistGet_cons]
      by_cases h : k' = k
      · subst h; simp
      · simp only [h, if_false, ih, List.map_cons, List.mem_cons]
        constructor
        · intro hn
          rintro (he | he)
          · exact h he.symm
          · exact hn he
        · intro hn he
          exact hn (Or.inr he)

theorem alistGet_isSome_iff {α : Type} (l : List (String × α)) (k : String) :
    (alistGet l k).isSome = true ↔ k ∈ l.map Prod.fst := by
  rw [← Decidable.not_iff_not, ← alistGet_eq_none_iff]
  simp [Option.isSome_iff_ne_none]

theorem alistGet_of_mem_nodup {α : Type} {l : List (String × α)} {p : String × α}
    (hnd : (l.map Prod.fst).Nodup) (hm : p ∈ l) : alistGet l p.1 = some p.2 := by
  induction l with
  | nil => cases hm
  | cons q rest ih =>
      obtain ⟨k', v'⟩ := q
      rw [List.map_cons, List.nodup_cons] at hnd
      rcases List.mem_cons.mp hm with h | h
      · subst h; rw [alistGet_cons]; simp
      · rw [alistGet_cons]
        have hne : k' ≠ p.1 := by
          intro he; exact hnd.1 (he ▸ (List.mem_map.mpr ⟨p, h, rfl⟩))
        simp [hne, ih hnd.2 h]

theorem alistGet_set_self {α : Type} (l : List (String × α)) (k : String) (v : α) :
    alistGet (alistSet l k v) k = some v := by
  induction l with
  | nil => simp [alistSet, alistGet_cons]
  | cons p rest ih =>
      obtain ⟨k', v'⟩ := p
      simp only [alistSet]
      by_cases h : k' = k <;> simp [h, alistGet_cons, ih]

theorem alistGet_set_ne {α : Type} (l : List (String × α)) (k k' : String) (v : α)
    (h : k' ≠ k) : alistGet (alistSet l k v) k' = alistGet l k' := by
  have hk : k ≠ k' := fun he => h he.symm
  induction l with
  | nil => simp [alistSet, alistGet_cons, alistGet_nil, hk]
  | cons p rest ih =>
      obtain ⟨k₀, v₀⟩ := p
      simp only [alistSet]
      by_cases h₀ : k₀ = k
      · subst h₀
        rw [if_pos rfl]
        rw [alistGet_cons, alistGet_cons, if_neg hk, if_neg hk]
      · rw [if_neg h₀, alistGet_cons, alistGet_cons, ih]

theorem alistSet_keys {α : Type} (l : List (String × α)) (k : String) (v : α) :
    (alistSet l k v).map Prod.fst =
      if k ∈ l.map Prod.fst then l.map Prod.fst else l.map Prod.fst ++ [k] := by
  induction l with
  | nil => simp [alistSet]
  | cons p rest ih =>
      obtain ⟨k₀, v₀⟩ := p
      simp only [alistSet]
      by_cases h₀ : k₀ = k
      · subst h₀; simp
      · have hk : k ≠ k₀ := fun he => h₀ he.symm
        by_cases hm : k ∈ rest.map Prod.fst <;>
          simp [h₀, hm, ih, hk]

theorem alistSet_keys_nodup {α : Type} (l : List (String × α)) (k : String) (v : α)
    (h : (l.map Prod.fst).Nodup) : ((alistSet l k v).map Prod.fst).Nodup := by
  rw [alistSet_keys]
  by_cases hm : k ∈ l.map Prod.fst
  · simpa [hm]
  · simp only [hm, if_false]
    exact List.Nodup.append h (List.nodup_singleton k)
      (fun a ha hb => hm (by rwa [List.mem_singleton.mp hb] at ha))

theorem alistDel_sublist {α : Type} (l : List (String × α)) (k : String) :
    (alistDel l k).Sublist l := by
  induction l with
  | nil => simp [alistDel]
  | cons p rest ih =>
      obtain ⟨k₀, v₀⟩ := p
      simp only [alistDel]
      by_cases h₀ : k₀ = k
      · simp [h₀]
      · simpa [h₀] using ih.cons₂ (k₀, v₀)

theorem alistDel_keys_nodup {α : Type} (l : List (String × α)) (k : String)
    (h : (l.map Prod.fst).Nodup) : ((alistDel l k).map Prod.fst).Nodup :=
  ((alistDel_sublist l k).map Prod.fst).nodup h

theorem alistGet_del_self {α : Type} (l : List (String × α)) (k : String)
    (h : (l.map Prod.fst).Nodup) : alistGet (alistDel l k) k = none := by
  induction l with
  | nil => simp [alistDel, alistGet_nil]
  | cons p rest ih =>
      obtain ⟨k₀, v₀⟩ := p
      rw [List.map_cons, List.nodup_cons] at h
      simp only [alistDel]
      by_cases h₀ : k₀ = k
      · subst h₀
        simp only [if_true]
        exact (alistGet_eq_none_iff rest k₀).mpr h.1
      · rw [if_neg h₀, alistGet_cons, if_neg h₀, ih h.2]

theorem alistGet_del_ne {α : Type} (l : List (String × α)) (k k' : String)
    (h : k' ≠ k) : alistGet (alistDel l k) k' = alistGet l k' := by
  induction l with
  | nil => simp [alistDel]
  | cons p rest ih =>
      obtain ⟨k₀, v₀⟩ := p
      simp only [alistDel]
      by_cases h₀ : k₀ = k
      · subst h₀
        rw [if_pos rfl, alistGet_cons, if_neg (fun he => h he.symm)]
      · rw [if_neg h₀, alistGet_cons, alistGet_cons, ih]

/- ===== Infrastructure lemmas: adapter room operations ===== -/

theorem socketJoin_get_self (rooms : Rooms) (sid r : String) :
    alistGet (socketJoin rooms sid r) r =
      some (if sid ∈ membersOf rooms r then membersOf rooms r
            else membersOf rooms r ++ [sid]) := by
  induction rooms with
  | nil => simp [socketJoin, membersOf, alistGet_cons, alistGet_nil]
  | cons p rest ih =>
      obtain ⟨k, ms⟩ := p
      simp only [socketJoin]
      by_cases h : k = r
      · subst h
        simp [alistGet_cons, membersOf]
      · rw [if_neg h, alistGet_cons, if_neg h, ih]
        simp [membersOf, alistGet_cons, h]

theorem socketJoin_get_ne (rooms : Rooms) (sid r r' : String) (h : r' ≠ r) :
    alistGet (socketJoin rooms sid r) r' = alistGet rooms r' := by
  induction rooms with
  | nil =>
      simp only [socketJoin]
      rw [alistGet_cons, if_neg (fun he => h he.symm), alistGet_nil]
  | cons p rest ih =>
      obtain ⟨k, ms⟩ := p
      simp only [socketJoin]
      by_cases hk : k = r
      · have hne : ¬ k = r' := fun he => h (he.symm.trans hk)
        rw [if_pos hk, alistGet_cons, if_neg hne, alistGet_cons, if_neg hne]
      · rw [if_neg hk, alistGet_cons, alistGet_cons, ih]

theorem membersOf_join_self (rooms : Rooms) (sid r : String) :
    membersOf (socketJoin rooms sid r) r =
      if sid ∈ membersOf rooms r then membersOf rooms r
      else membersOf rooms r ++ [sid] := by
  simp [membersOf, socketJoin_get_self]

theorem membersOf_join_ne (rooms : Rooms) (sid r r' : String) (h : r' ≠ r) :
    membersOf (socketJoin rooms sid r) r' = membersOf rooms r' := by
  simp [membersOf, socketJoin_get_ne rooms sid r r' h]

theorem socketJoin_keys (rooms : Rooms) (sid r : String) :
    (socketJoin rooms sid r).map Prod.fst =
      if r ∈ rooms.map Prod.fst then rooms.map Prod.fst
      else rooms.map Prod.fst ++ [r] := by
  induction rooms with
  | nil => simp [socketJoin]
  | cons p rest ih =>
      obtain ⟨k, ms⟩ := p
      simp only [socketJoin]
      by_cases h : k = r
      · subst h; simp
      · have hk : r ≠ k := fun he => h he.symm
        by_cases hm : r ∈ rest.map Prod.fst <;> simp [h, hm, ih, hk]

theorem socketJoin_keys_nodup (rooms : Rooms) (sid r : String)
    (h : (rooms.map Prod.fst).Nodup) : ((socketJoin rooms sid r).map Prod.fst).Nodup := by
  rw [socketJoin_keys]
  by_cases hm : r ∈ rooms.map Prod.fst
  · simpa [hm]
  · simp only [hm, if_false]
    exact List.Nodup.append h (List.nodup_singleton r)
      (fun a ha hb => hm (by rwa [List.mem_singleton.mp hb] at ha))

theorem socketJoin_values_ne_nil (rooms : Rooms) (sid r : String)
    (h : ∀ p ∈ rooms, p.2 ≠ []) : ∀ p ∈ socketJoin rooms sid r, p.2 ≠ [] := by
  induction rooms with
  | nil =>
      intro p hp
      simp only [socketJoin, List.mem_singleton] at hp
      subst hp; simp
  | cons q rest ih =>
      obtain ⟨k, ms⟩ := q
      intro p hp
      simp only [socketJoin] at hp
      by_cases hk : k = r
      · rw [if_pos hk] at hp
        rcases List.mem_cons.mp hp with he | he
        · subst he
          by_cases hm : sid ∈ ms
          · simpa [hm] using h (k, ms) (List.mem_cons_self _ _)
          · simp [hm]
        · exact h p (List.mem_cons_of_mem _ he)
      · rw [if_neg hk] at hp
        rcases List.mem_cons.mp hp with he | he
        · subst he; exact h (k, ms) (List.mem_cons_self _ _)
        · exact ih (fun q hq => h q (List.mem_cons_of_mem _ hq)) p he

theorem socketLeave_get_self (rooms : Rooms) (sid r : String)
    (h : (rooms.map Prod.fst).Nodup) :
    alistGet (socketLeave rooms sid r) r =
      if (membersOf rooms r).erase sid = [] then none
      else some ((membersOf rooms r).erase sid) := by
  induction rooms with
  | nil => simp [socketLeave, membersOf, alistGet_nil]
  | cons p rest ih =>
      obtain ⟨k, ms⟩ := p
      rw [List.map_cons, List.nodup_cons] at h
      simp only [socketLeave]
      by_cases hk : k = r
      · subst hk
        have hms : membersOf ((k, ms) :: rest) k = ms := by
          rw [membersOf, alistGet_cons, if_pos rfl, Option.getD_some]
        rw [if_pos rfl, hms]
        by_cases he : ms.erase sid = []
        · rw [if_pos he, if_pos he]
          exact (alistGet_eq_none_iff rest k).mpr h.1
        · rw [if_neg he, if_neg he, alistGet_cons, if_pos rfl]
      · have hms : membersOf ((k, ms) :: rest) r = membersOf rest r := by
          rw [membersOf, alistGet_cons, if_neg hk, membersOf]
        rw [if_neg hk, alistGet_cons, if_neg hk, ih h.2, hms]

theorem socketLeave_get_ne (rooms : Rooms) (sid r r' : String) (h : r' ≠ r) :
    alistGet (socketLeave rooms sid r) r' = alistGet rooms r' := by
  induction rooms with
  | nil => simp [socketLeave]
  | cons p rest ih =>
      obtain ⟨k, ms⟩ := p
      simp only [socketLeave]
      by_cases hk : k = r
      · have hne : ¬ k = r' := fun he => h (he.symm.trans hk)
        rw [if_pos hk]
        by_cases he : ms.erase sid = []
        · rw [if_pos he, alistGet_cons, if_neg hne]
        · rw [if_neg he, alistGet_cons, if_neg hne, alistGet_cons, if_neg hne]
      · rw [if_neg hk, alistGet_cons, alistGet_cons, ih]

theorem membersOf_leave_self (rooms : Rooms) (sid r : String)
    (h : (rooms.map Prod.fst).Nodup) :
    membersOf (socketLeave rooms sid r) r = (membersOf rooms r).erase sid := by
  rw [membersOf, socketLeave_get_self rooms sid r h]
  by_cases he : (membersOf rooms r).erase sid = [] <;> simp [he]

theorem membersOf_leave_ne (rooms : Rooms) (sid r r' : String) (h : r' ≠ r) :
    membersOf (socketLeave rooms sid r) r' = membersOf rooms r' := by
  simp [membersOf, socketLeave_get_ne rooms sid r r' h]

theorem socketLeave_keys_sublist (rooms : Rooms) (sid r : String) :
    ((socketLeave rooms sid r).map Prod.fst).Sublist (rooms.map Prod.fst) := by
  induction rooms with
  | nil => simp [socketLeave]
  | cons p rest ih =>
      obtain ⟨k, ms⟩ := p
      simp only [socketLeave]
      by_cases hk : k = r
      · rw [if_pos hk]
        by_cases he : ms.erase sid = []
        · rw [if_pos he, List.map_cons]
          exact List.sublist_cons_self _ _
        · rw [if_neg he, List.map_cons, List.map_cons]
      · rw [if_neg hk, List.map_cons, List.map_cons]
        exact List.Sublist.cons₂ _ ih

theorem socketLeave_keys_nodup (rooms : Rooms) (sid r : String)
    (h : (rooms.map Prod.fst).Nodup) : ((socketLeave rooms sid r).map Prod.fst).Nodup :=
  (socketLeave_keys_sublist rooms sid r).nodup h

theorem socketLeave_values_ne_nil (rooms : Rooms) (sid r : String)
    (h : ∀ p ∈ rooms, p.2 ≠ []) : ∀ p ∈ socketLeave rooms sid r, p.2 ≠ [] := by
  induction rooms with
  | nil => intro p hp; simp [socketLeave] at hp
  | cons q rest ih =>
      obtain ⟨k, ms⟩ := q
      intro p hp
      simp only [socketLeave] at hp
      by_cases hk : k = r
      · rw [if_pos hk] at hp
        by_cases he : ms.erase sid = []
        · rw [if_pos he] at hp
          exact h p (List.mem_cons_of_mem _ hp)
        · rw [if_neg he] at hp
          rcases List.mem_cons.mp hp with h' | h'
          · subst h'; exact he
          · exact h p (List.mem_cons_of_mem _ h')
      · rw [if_neg hk] at hp
        rcases List.mem_cons.mp hp with h' | h'
        · subst h'; exact h (k, ms) (List.mem_cons_self _ _)
        · exact ih (fun q hq => h q (List.mem_cons_of_mem _ hq)) p h'

theorem removeSidFromAllRooms_keys_sublist (rooms : Rooms) (sid : String) :
    ((removeSidFromAllRooms rooms sid).map Prod.fst).Sublist (rooms.map Prod.fst) := by
  induction rooms with
  | nil => simp [removeSidFromAllRooms]
  | cons p rest ih =>
      obtain ⟨k, ms⟩ := p
      simp only [removeSidFromAllRooms, List.filterMap_cons]
      by_cases he : ms.erase sid = []
      · rw [if_pos he, List.map_cons]
        exact (ih.trans (List.sublist_cons_self _ _))
      · rw [if_neg he, List.map_cons, List.map_cons]
        exact List.Sublist.cons₂ _ ih

theorem removeSidFromAllRooms_values_ne_nil (rooms : Rooms) (sid : String) :
    ∀ p ∈ removeSidFromAllRooms rooms sid, p.2 ≠ [] := by
  induction rooms with
  | nil => intro p hp; simp [removeSidFromAllRooms] at hp
  | cons q rest ih =>
      obtain ⟨k, ms⟩ := q
      intro p hp
      simp only [removeSidFromAllRooms, List.filterMap_cons] at hp
      by_cases he : ms.erase sid = []
      · rw [if_pos he] at hp
        exact ih p hp
      · rw [if_neg he] at hp
        rcases List.mem_cons.mp hp with h' | h'
        · subst h'; exact he
        · exact ih p h'

theorem removeSidFromAllRooms_get (rooms : Rooms) (sid r : String)
    (h : (rooms.map Prod.fst).Nodup) :
    alistGet (removeSidFromAllRooms rooms sid) r =
      if (membersOf rooms r).erase sid = [] then none
      else some ((membersOf rooms r).erase sid) := by
  induction rooms with
  | nil => simp [removeSidFromAllRooms, membersOf, alistGet_nil]
  | cons p rest ih =>
      obtain ⟨k, ms⟩ := p
      rw [List.map_cons, List.nodup_cons] at h
      simp only [removeSidFromAllRooms, List.filterMap_cons]
      by_cases hk : k = r
      · subst hk
        have hms : membersOf ((k, ms) :: rest) k = ms := by
          rw [membersOf, alistGet_cons, if_pos rfl, Option.getD_some]
        rw [hms]
        have hnone : alistGet (removeSidFromAllRooms rest sid) k = none := by
          rw [alistGet_eq_none_iff]
          exact fun hm => h.1 ((removeSidFromAllRooms_keys_sublist rest sid).mem hm)
        by_cases he : ms.erase sid = []
        · rw [if_pos he, if_pos he]
          simpa [removeSidFromAllRooms] using hnone
        · rw [if_neg he, if_neg he, alistGet_cons, if_pos rfl]
      · have hms : membersOf ((k, ms) :: rest) r = membersOf rest r := by
          rw [membersOf, alistGet_cons, if_neg hk, membersOf]
        rw [hms]
        by_cases he : ms.erase sid = []
        · rw [if_pos he]
          exact (by simpa [removeSidFromAllRooms] using ih h.2)
        · rw [if_neg he, alistGet_cons, if_neg hk]
          exact (by simpa [removeSidFromAllRooms] using ih h.2)

theorem membersOf_removeSid (rooms : Rooms) (sid r : String)
    (h : (rooms.map Prod.fst).Nodup) :
    membersOf (removeSidFromAllRooms rooms sid) r = (membersOf rooms r).erase sid := by
  rw [membersOf, removeSidFromAllRooms_get rooms sid r h]
  by_cases he : (membersOf rooms r).erase sid = [] <;> simp [he]

/-- The room-leaving loop of handleJoinGroup, seen pointwise: after
folding socket.leave over a duplicate-free list of rooms, sid has been
erased from exactly those rooms. -/
theorem membersOf_foldLeave (R : List String) (rooms : Rooms) (sid : String)
    (hnd : (rooms.map Prod.fst).Nodup) (hR : R.Nodup) (r' : String) :
    membersOf (R.foldl (fun rs r => socketLeave rs sid r) rooms) r' =
      if r' ∈ R then (membersOf rooms r').erase sid else membersOf rooms r' := by
  induction R generalizing rooms with
  | nil => simp
  | cons r R' ih =>
      rw [List.nodup_cons] at hR
      rw [List.foldl_cons]
      rw [ih (socketLeave rooms sid r) (socketLeave_keys_nodup rooms sid r hnd) hR.2]
      by_cases hmem : r' ∈ R'
      · have hne : r' ≠ r := fun he => hR.1 (he ▸ hmem)
        rw [if_pos hmem, membersOf_leave_ne rooms sid r r' hne,
          if_pos (List.mem_cons_of_mem _ hmem)]
      · rw [if_neg hmem]
        by_cases heq : r' = r
        · subst heq
          rw [membersOf_leave_self rooms sid r' hnd, if_pos (List.mem_cons_self _ _)]
        · rw [membersOf_leave_ne rooms sid r r' heq,
            if_neg (by simp [heq, hmem])]

theorem foldLeave_keys_nodup (R : List String) (rooms : Rooms) (sid : String)
    (hnd : (rooms.map Prod.fst).Nodup) :
    (((R.foldl (fun rs r => socketLeave rs sid r) rooms)).map Prod.fst).Nodup := by
  induction R generalizing rooms with
  | nil => simpa
  | cons r R' ih =>
      rw [List.foldl_cons]
      exact ih _ (socketLeave_keys_nodup rooms sid r hnd)

theorem foldLeave_values_ne_nil (R : List String) (rooms : Rooms) (sid : String)
    (h : ∀ p ∈ rooms, p.2 ≠ []) :
    ∀ p ∈ R.foldl (fun rs r => socketLeave rs sid r) rooms, p.2 ≠ [] := by
  induction R generalizing rooms with
  | nil =>
      intro p hp
      rw [List.foldl_nil] at hp
      exact h p hp
  | cons r R' ih =>
      rw [List.foldl_cons]
      exact ih _ (socketLeave_values_ne_nil rooms sid r h)

theorem socketJoin_values_nodup (rooms : Rooms) (sid r : String)
    (h : ∀ p ∈ rooms, p.2.Nodup) : ∀ p ∈ socketJoin rooms sid r, p.2.Nodup := by
  induction rooms with
  | nil =>
      intro p hp
      simp only [socketJoin, List.mem_singleton] at hp
      subst hp; simp
  | cons q rest ih =>
      obtain ⟨k, ms⟩ := q
      intro p hp
      simp only [socketJoin] at hp
      by_cases hk : k = r
      · rw [if_pos hk] at hp
        rcases List.mem_cons.mp hp with he | he
        · subst he
          by_cases hm : sid ∈ ms
          · simpa [hm] using h (k, ms) (List.mem_cons_self _ _)
          · have := h (k, ms) (List.mem_cons_self _ _)
            simp only [hm, if_neg]
            simpa [hm] using List.Nodup.append this (List.nodup_singleton sid)
              (fun a ha hb => hm (by rwa [List.mem_singleton.mp hb] at ha))
        · exact h p (List.mem_cons_of_mem _ he)
      · rw [if_neg hk] at hp
        rcases List.mem_cons.mp hp with he | he
        · subst he; exact h (k, ms) (List.mem_cons_self _ _)
        · exact ih (fun q hq => h q (List.mem_cons_of_mem _ hq)) p he

theorem socketLeave_values_nodup (rooms : Rooms) (sid r : String)
    (h : ∀ p ∈ rooms, p.2.Nodup) : ∀ p ∈ socketLeave rooms sid r, p.2.Nodup := by
  induction rooms with
  | nil => intro p hp; simp [socketLeave] at hp
  | cons q rest ih =>
      obtain ⟨k, ms⟩ := q
      intro p hp
      simp only [socketLeave] at hp
      by_cases hk : k = r
      · rw [if_pos hk] at hp
        by_cases he : ms.erase sid = []
        · rw [if_pos he] at hp
          exact h p (List.mem_cons_of_mem _ hp)
        · rw [if_neg he] at hp
          rcases List.mem_cons.mp hp with h' | h'
          · subst h'
            exact (h (k, ms) (List.mem_cons_self _ _)).erase sid
          · exact h p (List.mem_cons_of_mem _ h')
      · rw [if_neg hk] at hp
        rcases List.mem_cons.mp hp with h' | h'
        · subst h'; exact h (k, ms) (List.mem_cons_self _ _)
        · exact ih (fun q hq => h q (List.mem_cons_of_mem _ hq)) p h'

theorem removeSidFromAllRooms_values_nodup (rooms : Rooms) (sid : String)
    (h : ∀ p ∈ rooms, p.2.Nodup) : ∀ p ∈ removeSidFromAllRooms rooms sid, p.2.Nodup := by
  induction rooms with
  | nil => intro p hp; simp [removeSidFromAllRooms] at hp
  | cons q rest ih =>
      obtain ⟨k, ms⟩ := q
      intro p hp
      simp only [removeSidFromAllRooms, List.filterMap_cons] at hp
      by_cases he : ms.erase sid = []
      · rw [if_pos he] at hp
        exact ih (fun q hq => h q (List.mem_cons_of_mem _ hq)) p hp
      · rw [if_neg he] at hp
        rcases List.mem_cons.mp hp with h' | h'
        · subst h'
          exact (h (k, ms) (List.mem_cons_self _ _)).erase sid
        · exact ih (fun q hq => h q (List.mem_cons_of_mem _ hq)) p h'

theorem foldLeave_values_nodup (R : List String) (rooms : Rooms) (sid : String)
    (h : ∀ p ∈ rooms, p.2.Nodup) :
    ∀ p ∈ R.foldl (fun rs r => socketLeave rs sid r) rooms, p.2.Nodup := by
  induction R generalizing rooms with
  | nil =>
      intro p hp
      rw [List.foldl_nil] at hp
      exact h p hp
  | cons r R' ih =>
      rw [List.foldl_cons]
      exact ih _ (socketLeave_values_nodup rooms sid r h)

/- ===== Well-formed states ===== -/

/-- Well-formedness maintained by the Socket.IO adapter and the JS
Maps: room keys are unique, materialized rooms are nonempty, permalink
keys are unique. -/
def WF (st : ServerState) : Prop :=
  (st.rooms.map Prod.fst).Nodup ∧ (∀ p ∈ st.rooms, p.2 ≠ []) ∧
    (∀ p ∈ st.rooms, p.2.Nodup) ∧ (st.permalinks.map Prod.fst).Nodup

theorem WF_initState : WF initState := by
  refine ⟨?_, ?_, ?_, ?_⟩ <;> simp [initState]

theorem cleanup_permalinks_keys_nodup (L : List String) (st : ServerState)
    (pl : List (String × JsValue)) (h : (pl.map Prod.fst).Nodup) :
    ((L.foldl
        (fun pl roomName =>
          if getRoomClientCount st roomName = 0 then alistDel pl (dropGroupTag roomName)
          else pl)
        pl).map Prod.fst).Nodup := by
  induction L generalizing pl with
  | nil => simpa
  | cons r L' ih =>
      rw [List.foldl_cons]
      by_cases hc : getRoomClientCount st r = 0
      · rw [if_pos hc]
        exact ih _ (alistDel_keys_nodup pl _ h)
      · rw [if_neg hc]
        exact ih _ h

/-- Property access on an object never throws: jsGetField on obj is
always some. -/
theorem jsGetField_obj_isSome (fields : List (String × JsValue)) (k : String) :
    (jsGetField (JsValue.obj fields) k).isSome = true := by
  cases hf : List.find? (fun p => decide (p.1 = k)) fields <;> simp [jsGetField, hf]

/-- Unfolding of handleJoinGroup on a payload with a truthy groupId. -/
theorem handleJoinGroup_truthy (st : ServerState) (sid : String)
    (data gid gname : JsValue)
    (hg : jsGetField data "groupId" = some gid)
    (hn : jsGetField data "groupName" = some gname)
    (ht : jsTruthy gid = true) :
    handleJoinGroup st sid data =
      ({ st with
          permalinks :=
            if jsTruthy gname = true then alistSet st.permalinks (jsToString gid) gname
            else st.permalinks,
          rooms := socketJoin (evictGroups st.rooms sid) sid ("group_" ++ jsToString gid) },
       [.toSocket sid "joined-group"
          (.obj [("groupId", gid), ("groupName", gname),
                 ("roomName", .str ("group_" ++ jsToString gid)),
                 ("timestamp", .num st.clock)])]) := by
  rcases Bool.eq_false_or_eq_true (jsTruthy gname) with hgn | hgn <;>
    simp [handleJoinGroup, hg, hn, ht, hgn, setGroupPermalink, evictGroups]

/-- Unfolding of handleJoinGroup on a payload with a falsy groupId. -/
theorem handleJoinGroup_falsy (st : ServerState) (sid : String)
    (data gid gname : JsValue)
    (hg : jsGetField data "groupId" = some gid)
    (hn : jsGetField data "groupName" = some gname)
    (ht : jsTruthy gid = false) :
    handleJoinGroup st sid data =
      (st, [.toSocket sid "error" (.obj [("message", .str "Group ID is required")])]) := by
  simp [handleJoinGroup, hg, hn, ht]

/-- Unfolding of handleJoinGroup when the payload has no fields at all
(data null or undefined: the destructuring throws, the catch replies
with the generic failure). -/
theorem handleJoinGroup_throw (st : ServerState) (sid : String) (data : JsValue)
    (hg : jsGetField data "groupId" = none) :
    handleJoinGroup st sid data =
      (st, [.toSocket sid "error" (.obj [("message", .str "Failed to join group")])]) := by
  have hn : jsGetField data "groupName" = none := by
    cases data with
    | null => rfl
    | undefined => rfl
    | bool b => simp [jsGetField] at hg
    | num n => simp [jsGetField] at hg
    | str s => simp [jsGetField] at hg
    | obj fields =>
        exact absurd hg
          (by simpa [Option.isSome_iff_ne_none] using jsGetField_obj_isSome fields "groupId")
  simp [handleJoinGroup, hg, hn]

/-- Unfolding of handleLeaveGroup on a payload whose field access
succeeds. -/
theorem handleLeaveGroup_some (st : ServerState) (sid : String) (data gid : JsValue)
    (hg : jsGetField data "groupId" = some gid) :
    handleLeaveGroup st sid data =
      ({ st with
          rooms := socketLeave st.rooms sid ("group_" ++ jsToString gid),
          permalinks :=
            if getRoomClientCount
                  { st with rooms := socketLeave st.rooms sid ("group_" ++ jsToString gid) }
                  ("group_" ++ jsToString gid) = 0 then
              alistDel st.permalinks (jsToString gid)
            else st.permalinks },
       [.toSocket sid "left-group"
          (.obj [("groupId", gid),
                 ("roomName", .str ("group_" ++ jsToString gid)),
                 ("timestamp", .num st.clock)])]) := by
  by_cases hc :
      getRoomClientCount
        { st with rooms := socketLeave st.rooms sid ("group_" ++ jsToString gid) }
        ("group_" ++ jsToString gid) = 0 <;>
    simp [handleLeaveGroup, hg, hc, removeGroupPermalink]

theorem WF_stepOp (st : ServerState) (op : ClientOp) (h : WF st) :
    WF (stepOp st op).1 := by
  obtain ⟨hnd, hne, hvn, hpl⟩ := h
  cases op with
  | connect sid ip =>
      exact ⟨socketJoin_keys_nodup _ _ _ hnd, socketJoin_values_ne_nil _ _ _ hne,
        socketJoin_values_nodup _ _ _ hvn, hpl⟩
  | joinGroup sid data =>
      show WF (handleJoinGroup st sid data).1
      rw [handleJoinGroup]
      split
      next groupId groupName hg2 hn2 =>
        split
        · exact ⟨hnd, hne, hvn, hpl⟩
        · rcases Bool.eq_false_or_eq_true (jsTruthy groupName) with hgn | hgn
          · rw [hgn]
            exact ⟨socketJoin_keys_nodup _ _ _ (foldLeave_keys_nodup _ _ _ hnd),
              socketJoin_values_ne_nil _ _ _ (foldLeave_values_ne_nil _ _ _ hne),
              socketJoin_values_nodup _ _ _ (foldLeave_values_nodup _ _ _ hvn),
              alistSet_keys_nodup _ _ _ hpl⟩
          · rw [hgn]
            exact ⟨socketJoin_keys_nodup _ _ _ (foldLeave_keys_nodup _ _ _ hnd),
              socketJoin_values_ne_nil _ _ _ (foldLeave_values_ne_nil _ _ _ hne),
              socketJoin_values_nodup _ _ _ (foldLeave_values_nodup _ _ _ hvn), hpl⟩
      next => exact ⟨hnd, hne, hvn, hpl⟩
  | leaveGroup sid data =>
      show WF (handleLeaveGroup st sid data).1
      cases hg : jsGetField data "groupId" with
      | none =>
          rw [handleLeaveGroup, hg]
          exact ⟨hnd, hne, hvn, hpl⟩
      | some groupId =>
          rw [handleLeaveGroup_some st sid data groupId hg]
          refine ⟨socketLeave_keys_nodup _ _ _ hnd,
            socketLeave_values_ne_nil _ _ _ hne,
            socketLeave_values_nodup _ _ _ hvn, ?_⟩
          split
          · exact alistDel_keys_nodup _ _ hpl
          · exact hpl
  | joinPrescription sid =>
      exact ⟨socketJoin_keys_nodup _ _ _ hnd, socketJoin_values_ne_nil _ _ _ hne,
        socketJoin_values_nodup _ _ _ hvn, hpl⟩
  | leavePrescription sid =>
      exact ⟨socketLeave_keys_nodup _ _ _ hnd, socketLeave_values_ne_nil _ _ _ hne,
        socketLeave_values_nodup _ _ _ hvn, hpl⟩
  | ping sid => exact ⟨hnd, hne, hvn, hpl⟩
  | disconnect sid =>
      refine ⟨?_, ?_, ?_, ?_⟩
      · exact (removeSidFromAllRooms_keys_sublist st.rooms sid).nodup hnd
      · exact removeSidFromAllRooms_values_ne_nil st.rooms sid
      · exact removeSidFromAllRooms_values_nodup st.rooms sid hvn
      · exact cleanup_permalinks_keys_nodup _ _ _ hpl

theorem WF_runOps (st : ServerState) (ops : List ClientOp) (h : WF st) :
    WF (runOps st ops) := by
  induction ops generalizing st with
  | nil => simpa [runOps]
  | cons op ops' ih =>
      rw [runOps, List.foldl_cons]
      exact ih _ (WF_stepOp st op h)

/- ===== String and membership helpers ===== -/

theorem isPrefixOf_append_self (l t : List Char) : l.isPrefixOf (l ++ t) = true := by
  induction l with
  | nil => simp [List.isPrefixOf]
  | cons c l' ih => simp [List.isPrefixOf, ih]

theorem jsStartsWith_append_self (p g : String) : jsStartsWith (p ++ g) p = true := by
  rw [jsStartsWith]
  have h : (p ++ g).toList = p.toList ++ g.toList := by
    simp [String.toList, String.data_append]
  rw [h]
  exact isPrefixOf_append_self _ _

theorem dropGroupTag_groupRoom (g : String) : dropGroupTag ("group_" ++ g) = g := by
  rw [dropGroupTag]
  have h : ("group_" ++ g).toList = "group_".toList ++ g.toList := by
    simp [String.toList, String.data_append]
  rw [h]
  have h6 : ("group_".toList).length = 6 := by decide
  rw [← h6, List.drop_left]
  cases g
  rfl

theorem groupRoom_ne_prescription (g : String) : ("group_" ++ g) ≠ "prescription" := by
  intro h
  have hs := jsStartsWith_append_self "group_" g
  rw [h] at hs
  exact absurd hs (by decide)

theorem prescription_not_groupRoom : jsStartsWith "prescription" "group_" = false := by decide

theorem alistGet_some_mem {α : Type} {l : List (String × α)} {k : String} {v : α}
    (h : alistGet l k = some v) : (k, v) ∈ l := by
  induction l with
  | nil => simp [alistGet_nil] at h
  | cons p rest ih =>
      obtain ⟨k₀, v₀⟩ := p
      rw [alistGet_cons] at h
      by_cases hk : k₀ = k
      · rw [if_pos hk] at h
        have hv : v₀ = v := by injection h
        subst hk; subst hv
        exact List.mem_cons_self _ _
      · rw [if_neg hk] at h
        exact List.mem_cons_of_mem _ (ih h)

theorem membersOf_nodup (rooms : Rooms) (r : String)
    (hvn : ∀ p ∈ rooms, p.2.Nodup) : (membersOf rooms r).Nodup := by
  rw [membersOf]
  cases hg : alistGet rooms r with
  | none => simp
  | some ms =>
      simpa using hvn (r, ms) (alistGet_some_mem hg)

theorem mem_sidRooms_iff (rooms : Rooms) (sid r : String)
    (hnd : (rooms.map Prod.fst).Nodup) :
    r ∈ sidRooms rooms sid ↔ sid ∈ membersOf rooms r := by
  rw [sidRooms]
  constructor
  · intro h
    obtain ⟨p, hp, hpr⟩ := List.mem_map.mp h
    have hpf := List.mem_filter.mp hp
    have hget : alistGet rooms p.1 = some p.2 := alistGet_of_mem_nodup hnd hpf.1
    rw [← hpr, membersOf, hget]
    simpa using hpf.2
  · intro h
    cases hg : alistGet rooms r with
    | none => rw [membersOf, hg] at h; simp at h
    | some ms =>
        have hm : (r, ms) ∈ rooms := alistGet_some_mem hg
        apply List.mem_map.mpr
        refine ⟨(r, ms), List.mem_filter.mpr ⟨hm, ?_⟩, rfl⟩
        rw [membersOf, hg] at h
        simpa using h

theorem sidRooms_nodup (rooms : Rooms) (sid : String)
    (hnd : (rooms.map Prod.fst).Nodup) : (sidRooms rooms sid).Nodup := by
  rw [sidRooms]
  exact (List.Sublist.map (fun p => p.1) (List.filter_sublist rooms)).nodup hnd

/- ===== Eviction and join membership facts ===== -/

theorem evictGroups_members (rooms : Rooms) (sid r : String)
    (hnd : (rooms.map Prod.fst).Nodup) :
    membersOf (evictGroups rooms sid) r =
      if sid ∈ membersOf rooms r ∧ r ≠ sid ∧ jsStartsWith r "group_" = true
      then (membersOf rooms r).erase sid else membersOf rooms r := by
  rw [evictGroups]
  have hR : ((sidRooms rooms sid).filter
      (fun r => r ≠ sid && jsStartsWith r "group_")).Nodup :=
    (List.filter_sublist _).nodup (sidRooms_nodup rooms sid hnd)
  rw [membersOf_foldLeave _ rooms sid hnd hR r]
  have hmem : r ∈ (sidRooms rooms sid).filter (fun r => r ≠ sid && jsStartsWith r "group_") ↔
      (sid ∈ membersOf rooms r ∧ r ≠ sid ∧ jsStartsWith r "group_" = true) := by
    rw [List.mem_filter, mem_sidRooms_iff rooms sid r hnd]
    simp [and_assoc]
  by_cases hc : sid ∈ membersOf rooms r ∧ r ≠ sid ∧ jsStartsWith r "group_" = true
  · rw [if_pos (hmem.mpr hc), if_pos hc]
  · rw [if_neg (fun hm => hc (hmem.mp hm)), if_neg hc]

theorem evictGroups_not_mem (rooms : Rooms) (sid r : String)
    (hnd : (rooms.map Prod.fst).Nodup) (hvn : ∀ p ∈ rooms, p.2.Nodup)
    (hsid : jsStartsWith sid "group_" = false)
    (hr : jsStartsWith r "group_" = true) :
    sid ∉ membersOf (evictGroups rooms sid) r := by
  have hrs : r ≠ sid := fun he => by rw [he] at hr; rw [hr] at hsid; cases hsid
  rw [evictGroups_members rooms sid r hnd]
  by_cases hm : sid ∈ membersOf rooms r
  · rw [if_pos ⟨hm, hrs, hr⟩]
    intro hmem
    have := ((membersOf_nodup rooms r hvn).mem_erase_iff).mp hmem
    exact this.1 rfl
  · rw [if_neg (fun hc => hm hc.1)]
    exact hm

theorem evictGroups_members_not_group (rooms : Rooms) (sid r : String)
    (hnd : (rooms.map Prod.fst).Nodup)
    (hr : jsStartsWith r "group_" = false) :
    membersOf (evictGroups rooms sid) r = membersOf rooms r := by
  rw [evictGroups_members rooms sid r hnd]
  rw [if_neg (fun hc => by rw [hc.2.2] at hr; cases hr)]

theorem evictGroups_mem_of_ne (rooms : Rooms) (sid s r : String)
    (hnd : (rooms.map Prod.fst).Nodup) (hs : s ≠ sid) :
    s ∈ membersOf (evictGroups rooms sid) r ↔ s ∈ membersOf rooms r := by
  rw [evictGroups_members rooms sid r hnd]
  by_cases hc : sid ∈ membersOf rooms r ∧ r ≠ sid ∧ jsStartsWith r "group_" = true
  · rw [if_pos hc]
    exact List.mem_erase_of_ne hs
  · rw [if_neg hc]

/-- After a successful join-group, the socket is a member of the
joined group room. -/
theorem joinGroup_mem_self (st : ServerState) (sid : String) (gid : JsValue) :
    sid ∈ membersOf
      (socketJoin (evictGroups st.rooms sid) sid ("group_" ++ jsToString gid))
      ("group_" ++ jsToString gid) := by
  rw [membersOf_join_self]
  by_cases hm : sid ∈ membersOf (evictGroups st.rooms sid) ("group_" ++ jsToString gid)
  · rwa [if_pos hm]
  · rw [if_neg hm]
    simp

/-- After a successful join-group, the joined room is the only group
room holding the socket. -/
theorem joinGroup_only_group (st : ServerState) (sid : String) (gid : JsValue)
    (hnd : (st.rooms.map Prod.fst).Nodup) (hvn : ∀ p ∈ st.rooms, p.2.Nodup)
    (hsid : jsStartsWith sid "group_" = false) :
    ∀ r, jsStartsWith r "group_" = true →
      sid ∈ membersOf
        (socketJoin (evictGroups st.rooms sid) sid ("group_" ++ jsToString gid)) r →
      r = "group_" ++ jsToString gid := by
  intro r hr hmem
  by_contra hne
  rw [membersOf_join_ne _ _ _ _ hne] at hmem
  exact evictGroups_not_mem st.rooms sid r hnd hvn hsid hr hmem

/-- A join-group leaves every non-group room (in particular the
prescription room) untouched. -/
theorem joinGroup_members_not_group (st : ServerState) (sid : String) (gid : JsValue)
    (hnd : (st.rooms.map Prod.fst).Nodup) (r : String)
    (hr : jsStartsWith r "group_" = false) :
    membersOf
      (socketJoin (evictGroups st.rooms sid) sid ("group_" ++ jsToString gid)) r =
      membersOf st.rooms r := by
  have hne : r ≠ "group_" ++ jsToString gid := by
    intro he
    rw [he, jsStartsWith_append_self] at hr
    cases hr
  rw [membersOf_join_ne _ _ _ _ hne]
  exact evictGroups_members_not_group st.rooms sid r hnd hr

/-- socket.join does not change any other socket's membership of any
room. -/
theorem socketJoin_mem_of_ne (rooms : Rooms) (sid rn s r : String) (hs : s ≠ sid) :
    s ∈ membersOf (socketJoin rooms sid rn) r ↔ s ∈ membersOf rooms r := by
  by_cases hne : r = rn
  · subst hne
    rw [membersOf_join_self]
    by_cases hm : sid ∈ membersOf rooms r
    · rw [if_pos hm]
    · rw [if_neg hm, List.mem_append, List.mem_singleton]
      constructor
      · rintro (h | h)
        · exact h
        · exact absurd h hs
      · exact Or.inl
  · rw [membersOf_join_ne _ _ _ _ hne]

/-- A join-group does not change any other socket's membership of any
room. -/
theorem joinGroup_members_of_ne (st : ServerState) (sid : String) (gid : JsValue)
    (hnd : (st.rooms.map Prod.fst).Nodup) (s r : String) (hs : s ≠ sid) :
    (s ∈ membersOf
        (socketJoin (evictGroups st.rooms sid) sid ("group_" ++ jsToString gid)) r ↔
      s ∈ membersOf st.rooms r) :=
  (socketJoin_mem_of_ne _ sid _ s r hs).trans (evictGroups_mem_of_ne st.rooms sid s r hnd hs)

/- ===== Preservation of the at-most-one-group invariant ===== -/

theorem jsGetField_pair_some {data gid : JsValue}
    (hg : jsGetField data "groupId" = some gid) :
    ∃ gname, jsGetField data "groupName" = some gname := by
  cases data with
  | null => simp [jsGetField] at hg
  | undefined => simp [jsGetField] at hg
  | bool b => exact ⟨.undefined, rfl⟩
  | num n => exact ⟨.undefined, rfl⟩
  | str s => exact ⟨.undefined, rfl⟩
  | obj fields =>
      have := jsGetField_obj_isSome fields "groupName"
      exact ⟨(jsGetField (.obj fields) "groupName").get this, (Option.some_get this).symm⟩

theorem AtMostOne_stepOp (st : ServerState) (op : ClientOp) (hWF : WF st)
    (hgood : jsStartsWith (opSid op) "group_" = false)
    (hinv : AtMostOneGroup st) : AtMostOneGroup (stepOp st op).1 := by
  obtain ⟨hnd, hne, hvn, hpl⟩ := hWF
  cases op with
  | connect sid ip =>
      have hgood' : jsStartsWith sid "group_" = false := hgood
      intro s r₁ r₂ h1 h2 m1 m2
      have hr1 : r₁ ≠ sid := fun he => by rw [he, hgood'] at h1; cases h1
      have hr2 : r₂ ≠ sid := fun he => by rw [he, hgood'] at h2; cases h2
      have m1' : s ∈ membersOf (socketJoin st.rooms sid sid) r₁ := m1
      have m2' : s ∈ membersOf (socketJoin st.rooms sid sid) r₂ := m2
      rw [membersOf_join_ne _ _ _ _ hr1] at m1'
      rw [membersOf_join_ne _ _ _ _ hr2] at m2'
      exact hinv s r₁ r₂ h1 h2 m1' m2'
  | joinGroup sid data =>
      show AtMostOneGroup (handleJoinGroup st sid data).1
      cases hg : jsGetField data "groupId" with
      | none => rw [handleJoinGroup_throw st sid data hg]; exact hinv
      | some gid =>
          have hgood' : jsStartsWith sid "group_" = false := hgood
          obtain ⟨gname, hn⟩ := jsGetField_pair_some hg
          rcases Bool.eq_false_or_eq_true (jsTruthy gid) with ht | ht
          case inr =>
            rw [handleJoinGroup_falsy st sid data gid gname hg hn ht]
            exact hinv
          case inl =>
            rw [handleJoinGroup_truthy st sid data gid gname hg hn ht]
            intro s r₁ r₂ h1 h2 m1 m2
            have m1' : s ∈ membersOf
                (socketJoin (evictGroups st.rooms sid) sid ("group_" ++ jsToString gid)) r₁ := m1
            have m2' : s ∈ membersOf
                (socketJoin (evictGroups st.rooms sid) sid ("group_" ++ jsToString gid)) r₂ := m2
            by_cases hs : s = sid
            · subst hs
              rw [joinGroup_only_group st s gid hnd hvn hgood' r₁ h1 m1',
                joinGroup_only_group st s gid hnd hvn hgood' r₂ h2 m2']
            · rw [joinGroup_members_of_ne st sid gid hnd s r₁ hs] at m1'
              rw [joinGroup_members_of_ne st sid gid hnd s r₂ hs] at m2'
              exact hinv s r₁ r₂ h1 h2 m1' m2'
  | leaveGroup sid data =>
      show AtMostOneGroup (handleLeaveGroup st sid data).1
      cases hg : jsGetField data "groupId" with
      | none => rw [handleLeaveGroup, hg]; exact hinv
      | some gid =>
          rw [handleLeaveGroup_some st sid data gid hg]
          intro s r₁ r₂ h1 h2 m1 m2
          have m1' : s ∈ membersOf
              (socketLeave st.rooms sid ("group_" ++ jsToString gid)) r₁ := m1
          have m2' : s ∈ membersOf
              (socketLeave st.rooms sid ("group_" ++ jsToString gid)) r₂ := m2
          have mono : ∀ r, s ∈ membersOf
              (socketLeave st.rooms sid ("group_" ++ jsToString gid)) r →
              s ∈ membersOf st.rooms r := by
            intro r hm
            by_cases hr : r = "group_" ++ jsToString gid
            · subst hr
              rw [membersOf_leave_self _ _ _ hnd] at hm
              exact List.mem_of_mem_erase hm
            · rwa [membersOf_leave_ne _ _ _ _ hr] at hm
          exact hinv s r₁ r₂ h1 h2 (mono r₁ m1') (mono r₂ m2')
  | joinPrescription sid =>
      intro s r₁ r₂ h1 h2 m1 m2
      have hr1 : r₁ ≠ "prescription" := fun he => by
        rw [he, prescription_not_groupRoom] at h1; cases h1
      have hr2 : r₂ ≠ "prescription" := fun he => by
        rw [he, prescription_not_groupRoom] at h2; cases h2
      have m1' : s ∈ membersOf (socketJoin st.rooms sid "prescription") r₁ := m1
      have m2' : s ∈ membersOf (socketJoin st.rooms sid "prescription") r₂ := m2
      rw [membersOf_join_ne _ _ _ _ hr1] at m1'
      rw [membersOf_join_ne _ _ _ _ hr2] at m2'
      exact hinv s r₁ r₂ h1 h2 m1' m2'
  | leavePrescription sid =>
      intro s r₁ r₂ h1 h2 m1 m2
      have hr1 : r₁ ≠ "prescription" := fun he => by
        rw [he, prescription_not_groupRoom] at h1; cases h1
      have hr2 : r₂ ≠ "prescription" := fun he => by
        rw [he, prescription_not_groupRoom] at h2; cases h2
      have m1' : s ∈ membersOf (socketLeave st.rooms sid "prescription") r₁ := m1
      have m2' : s ∈ membersOf (socketLeave st.rooms sid "prescription") r₂ := m2
      rw [membersOf_leave_ne _ _ _ _ hr1] at m1'
      rw [membersOf_leave_ne _ _ _ _ hr2] at m2'
      exact hinv s r₁ r₂ h1 h2 m1' m2'
  | ping sid => exact hinv
  | disconnect sid =>
      intro s r₁ r₂ h1 h2 m1 m2
      have m1' : s ∈ membersOf (removeSidFromAllRooms st.rooms sid) r₁ := m1
      have m2' : s ∈ membersOf (removeSidFromAllRooms st.rooms sid) r₂ := m2
      rw [membersOf_removeSid _ _ _ hnd] at m1' m2'
      exact hinv s r₁ r₂ h1 h2 (List.mem_of_mem_erase m1') (List.mem_of_mem_erase m2')

theorem AtMostOne_runOps (st : ServerState) (ops : List ClientOp)
    (hWF : WF st) (hinv : AtMostOneGroup st) (hgood : GoodOps ops) :
    AtMostOneGroup (runOps st ops) := by
  induction ops generalizing st with
  | nil => simpa [runOps]
  | cons op ops' ih =>
      rw [runOps, List.foldl_cons]
      exact ih _ (WF_stepOp st op hWF)
        (AtMostOne_stepOp st op hWF (hgood op (List.mem_cons_self _ _)) hinv)
        (fun o ho => hgood o (List.mem_cons_of_mem _ ho))

theorem AtMostOne_initState : AtMostOneGroup initState := by
  intro s r₁ r₂ h1 h2 m1 m2
  simp [initState, roomMembers, alistGet_nil] at m1

/- ===== Claim C3 ===== -/

/-- C3: for every connection and every sequence of join-group,
leave-group, join-prescription and leave-prescription operations (and
connects, pings, disconnects), a connection is a member of at most one
group_ room; joining group B while a member of group A leaves it a
member of group_B only; and membership of the prescription room is
unchanged by any group join or leave. -/
theorem claim_C3 :
    (∀ ops : List ClientOp, GoodOps ops → AtMostOneGroup (runOps initState ops)) ∧
    (∀ (st : ServerState) (sid : String) (data gid gname : JsValue),
      WF st → jsStartsWith sid "group_" = false →
      jsGetField data "groupId" = some gid →
      jsGetField data "groupName" = some gname →
      jsTruthy gid = true →
      (sid ∈ roomMembers (handleJoinGroup st sid data).1 ("group_" ++ jsToString gid) ∧
       (∀ r, jsStartsWith r "group_" = true →
          sid ∈ roomMembers (handleJoinGroup st sid data).1 r →
          r = "group_" ++ jsToString gid) ∧
       roomMembers (handleJoinGroup st sid data).1 "prescription" =
         roomMembers st "prescription")) ∧
    (∀ (st : ServerState) (sid : String) (data gid : JsValue),
      jsGetField data "groupId" = some gid →
      roomMembers (handleLeaveGroup st sid data).1 "prescription" =
        roomMembers st "prescription") := by
  refine ⟨?_, ?_, ?_⟩
  · intro ops hgood
    exact AtMostOne_runOps initState ops WF_initState AtMostOne_initState hgood
  · intro st sid data gid gname hWF hsid hg hn ht
    obtain ⟨hnd, hne, hvn, hpl⟩ := hWF
    rw [handleJoinGroup_truthy st sid data gid gname hg hn ht]
    refine ⟨joinGroup_mem_self st sid gid, ?_, ?_⟩
    · intro r hr hm
      exact joinGroup_only_group st sid gid hnd hvn hsid r hr hm
    · exact joinGroup_members_not_group st sid gid hnd "prescription"
        prescription_not_groupRoom
  · intro st sid data gid hg
    rw [handleLeaveGroup_some st sid data gid hg]
    show membersOf (socketLeave st.rooms sid ("group_" ++ jsToString gid)) "prescription" =
      membersOf st.rooms "prescription"
    exact membersOf_leave_ne _ _ _ _ (groupRoom_ne_prescription (jsToString gid)).symm

/-- Witness for C3: a concrete session joining group 1 and then group 2
satisfies the invariant, and the discharged hypotheses hold. -/
theorem claim_C3_witness :
    GoodOps [ClientOp.connect "s1" "ip", ClientOp.joinGroup "s1" (.obj [("groupId", .str "1")]),
      ClientOp.joinGroup "s1" (.obj [("groupId", .str "2")])] ∧
    AtMostOneGroup (runOps initState
      [ClientOp.connect "s1" "ip", ClientOp.joinGroup "s1" (.obj [("groupId", .str "1")]),
        ClientOp.joinGroup "s1" (.obj [("groupId", .str "2")])]) :=
  ⟨by unfold GoodOps; decide, claim_C3.1 _ (by unfold GoodOps; decide)⟩

/-- Unfolding of handleGeneralMessage for a string event. -/
theorem handleGeneralMessage_str (st : ServerState) (ch e : String) (d : JsValue) :
    handleGeneralMessage st ch ⟨.str e, d⟩ =
      if jsStartsWith e "prescription." = true then broadcastToPrescriptionRoom st ch e d
      else if (!jsStartsWith ch "antrian.") = true then [.toAll (ch ++ ":" ++ e) d]
      else [] := rfl

/- ===== Claim C8 ===== -/

/-- C8: a raw message that is not well-formed JSON (JSON.parse throws,
modelled by the none parse result) produces no client-visible send on
either subscription pattern, and the handler returns normally (it is a
total function here because the try/catch swallows the parse error). -/
theorem claim_C8 (st : ServerState) (channel : String) (isAntrian : Bool) :
    processMessage st none channel isAntrian = [] ∧
    redisPublish st none channel = [] := by
  constructor
  · rfl
  · rw [redisPublish]
    by_cases h : jsStartsWith channel "antrian." = true
    · rw [if_pos h]
      rfl
    · rw [if_neg h]
      rfl

/- ===== Claim C7 ===== -/

/-- C7: publishing a valid envelope with event prescription.ready on
channel orders.42 produces exactly one multicast, to the prescription
room, with the channel-prefixed event name orders.42:prescription.ready
and the original data; it reaches every current member of that room;
and by contrast the group path always forwards the bare event name. -/
theorem claim_C7 (st : ServerState) (d : JsValue)
    (hd : jsTruthy d = true) (hne : roomMembers st "prescription" ≠ []) :
    redisPublish st
        (some (.obj [("event", .str "prescription.ready"), ("data", d)])) "orders.42" =
      [.toRoom "prescription" (.str "orders.42:prescription.ready") d] ∧
    emissionRecipients st
        (.toRoom "prescription" (.str "orders.42:prescription.ready") d) =
      roomMembers st "prescription" ∧
    (∀ (st' : ServerState) (ch g : String) (ev dd msg : JsValue),
      extractGroupIdFromChannel ch = some g →
      decodeEnvelope (some msg) = some ⟨ev, dd⟩ →
      processMessage st' (some msg) ch true =
        if getRoomClientCount st' ("group_" ++ g) = 0 then []
        else [.toRoom ("group_" ++ g) ev dd]) := by
  refine ⟨?_, rfl, ?_⟩
  · have hcount : getRoomClientCount st "prescription" ≠ 0 := by
      rw [getRoomClientCount]
      simpa using hne
    rw [redisPublish]
    rw [if_neg (by decide)]
    show processMessage st _ "orders.42" false = _
    rw [processMessage]
    have hev : jsTruthy (JsValue.str "prescription.ready") = true := by decide
    have hdec : decodeEnvelope
        (some (.obj [("event", .str "prescription.ready"), ("data", d)])) =
        some ⟨.str "prescription.ready", d⟩ := by
      rw [decodeEnvelope]
      simp [jsGetField, hev, hd]
    rw [hdec]
    show handleGeneralMessage st "orders.42" ⟨.str "prescription.ready", d⟩ = _
    rw [handleGeneralMessage_str]
    rw [if_pos (by decide)]
    rw [broadcastToPrescriptionRoom, if_neg hcount]
    simp
  · intro st' ch g ev dd msg hg hdec
    rw [processMessage, hdec]
    show (match extractGroupIdFromChannel ch with
      | none => []
      | some groupId => broadcastToClients st' ch ev dd groupId) = _
    rw [hg]
    rfl

/-- Witness for C7 at a concrete state and data value. -/
theorem claim_C7_witness :
    jsTruthy (.num 3) = true ∧
    roomMembers ⟨[("prescription", ["b"])], [], [], 0⟩ "prescription" ≠ [] ∧
    redisPublish ⟨[("prescription", ["b"])], [], [], 0⟩
        (some (.obj [("event", .str "prescription.ready"), ("data", .num 3)])) "orders.42" =
      [.toRoom "prescription" (.str "orders.42:prescription.ready") (.num 3)] :=
  ⟨by decide, by simp [roomMembers, alistGet], (claim_C7 _ _ (by decide) (by simp [roomMembers, alistGet])).1⟩

/- ===== Claim C6 ===== -/

/-- C6 counterexample: the payload with event "e" and data 0 has both
fields present and non-null (the claimed validity condition holds), yet
the decode in processMessage rejects it, because !data.data is true for
the present falsy value 0. -/
theorem claim_C6_counterexample :
    decodeEnvelope (some (.obj [("event", .str "e"), ("data", .num 0)])) = none ∧
    specEnvelopeOk (some (.obj [("event", .str "e"), ("data", .num 0)])) = true :=
  ⟨rfl, rfl⟩

/-- C6 amended: the decode reports Malformed (without throwing) exactly
when the payload is not well-formed structured data or when the event
or data field is absent, null, or any other falsy value (0, false, the
empty string); on success the two fields are forwarded untouched, and
every successfully decoded payload also satisfies the spec's weaker
absent-or-null condition. -/
theorem claim_C6_amended :
    decodeEnvelope none = none ∧
    (∀ v : JsValue, (decodeEnvelope (some v)).isSome = true ↔
        (∃ ev d, jsGetField v "event" = some ev ∧ jsGetField v "data" = some d ∧
          jsTruthy ev = true ∧ jsTruthy d = true)) ∧
    (∀ (v ev d : JsValue), decodeEnvelope (some v) = some ⟨ev, d⟩ →
      jsGetField v "event" = some ev ∧ jsGetField v "data" = some d) ∧
    (∀ p : Option JsValue, (decodeEnvelope p).isSome = true → specEnvelopeOk p = true) := by
  have hchar : ∀ v : JsValue, decodeEnvelope (some v) =
      match jsGetField v "event", jsGetField v "data" with
      | some ev, some d => if jsTruthy ev && jsTruthy d then some ⟨ev, d⟩ else none
      | _, _ => none := fun v => rfl
  refine ⟨rfl, ?_, ?_, ?_⟩
  · intro v
    rw [hchar]
    cases hev : jsGetField v "event" with
    | none =>
        constructor
        · intro h; simp at h
        · rintro ⟨ev, d, he, _, _, _⟩; exact Option.noConfusion he
    | some ev =>
        cases hd : jsGetField v "data" with
        | none =>
            constructor
            · intro h; simp at h
            · rintro ⟨ev', d, _, hd', _, _⟩; exact Option.noConfusion hd'
        | some d =>
            constructor
            · intro h
              rcases Bool.eq_false_or_eq_true (jsTruthy ev && jsTruthy d) with hb | hb
              · rw [Bool.and_eq_true] at hb
                exact ⟨ev, d, rfl, rfl, hb.1, hb.2⟩
              · simp [hb] at h
            · rintro ⟨ev', d', he', hd', ht1, ht2⟩
              have h1 : ev = ev' := by injection he'
              have h2 : d = d' := by injection hd'
              subst h1; subst h2
              simp [ht1, ht2]
  · intro v ev d h
    rw [hchar] at h
    cases hev : jsGetField v "event" with
    | none => rw [hev] at h; cases h
    | some ev₀ =>
        cases hd : jsGetField v "data" with
        | none => rw [hev, hd] at h; cases h
        | some d₀ =>
            rw [hev, hd] at h
            rcases Bool.eq_false_or_eq_true (jsTruthy ev₀ && jsTruthy d₀) with hb | hb
            · simp [hb] at h
              obtain ⟨h1, h2⟩ := h
              exact ⟨by rw [h1], by rw [h2]⟩
            · simp [hb] at h
  · intro p h
    cases p with
    | none => simp [decodeEnvelope] at h
    | some v =>
        rw [hchar] at h
        rw [specEnvelopeOk]
        cases hev : jsGetField v "event" with
        | none => rw [hev] at h; cases h
        | some ev₀ =>
            cases hd : jsGetField v "data" with
            | none => rw [hev, hd] at h; cases h
            | some d₀ =>
                rw [hev, hd] at h
                rcases Bool.eq_false_or_eq_true (jsTruthy ev₀ && jsTruthy d₀) with hb | hb
                · rw [Bool.and_eq_true] at hb
                  have hok : ∀ w : JsValue, jsTruthy w = true → ∀ k,
                      jsGetField v k = some w → specFieldOk v k = true := by
                    intro w hw k hk
                    rw [specFieldOk, hk]
                    cases w <;> first | rfl | (rw [jsTruthy] at hw; cases hw)
                  rw [Bool.and_eq_true]
                  exact ⟨hok ev₀ hb.1 "event" hev, hok d₀ hb.2 "data" hd⟩
                · simp [hb] at h

/-- Witness for C6 amended: a payload with truthy fields decodes
successfully and is forwarded untouched. -/
theorem claim_C6_amended_witness :
    decodeEnvelope (some (.obj [("event", .str "e"), ("data", .num 7)])) =
      some ⟨.str "e", .num 7⟩ ∧
    jsGetField (.obj [("event", .str "e"), ("data", .num 7)]) "event" = some (.str "e") ∧
    jsGetField (.obj [("event", .str "e"), ("data", .num 7)]) "data" = some (.num 7) :=
  ⟨rfl, (claim_C6_amended.2.2.1 (.obj [("event", .str "e"), ("data", .num 7)])
      (.str "e") (.num 7) rfl).1,
    (claim_C6_amended.2.2.1 (.obj [("event", .str "e"), ("data", .num 7)])
      (.str "e") (.num 7) rfl).2⟩

/- ===== Claim C4 ===== -/

/-- C4 counterexample: on a join-group whose groupId is present but the
number 0, the handler emits the typed client error and changes no state
-- the join does not proceed, contradicting the claim that every
present groupId (including falsy ones) joins. -/
theorem claim_C4_counterexample :
    handleJoinGroup (runOps initState [.connect "s1" "ip1"]) "s1"
        (.obj [("groupId", .num 0)]) =
      (runOps initState [.connect "s1" "ip1"],
       [.toSocket "s1" "error" (.obj [("message", .str "Group ID is required")])]) :=
  rfl

/-- C4 amended: on a join-group whose groupId is absent or otherwise
falsy, the handler emits the typed client error to the requester only
and changes no state; when groupId is truthy the join proceeds and the
join-confirmation is emitted to the requester only. -/
theorem claim_C4_amended (st : ServerState) (sid : String)
    (data gid gname : JsValue)
    (hg : jsGetField data "groupId" = some gid)
    (hn : jsGetField data "groupName" = some gname) :
    (jsTruthy gid = false →
      handleJoinGroup st sid data =
        (st, [.toSocket sid "error" (.obj [("message", .str "Group ID is required")])])) ∧
    (jsTruthy gid = true →
      (handleJoinGroup st sid data).2 =
        [.toSocket sid "joined-group"
          (.obj [("groupId", gid), ("groupName", gname),
                 ("roomName", .str ("group_" ++ jsToString gid)),
                 ("timestamp", .num st.clock)])] ∧
      sid ∈ roomMembers (handleJoinGroup st sid data).1 ("group_" ++ jsToString gid)) := by
  constructor
  · intro ht
    exact handleJoinGroup_falsy st sid data gid gname hg hn ht
  · intro ht
    rw [handleJoinGroup_truthy st sid data gid gname hg hn ht]
    exact ⟨rfl, joinGroup_mem_self st sid gid⟩

/-- Witness for C4 amended, at a present truthy groupId and a present
falsy one. -/
theorem claim_C4_amended_witness :
    jsGetField (.obj [("groupId", .num 0)]) "groupId" = some (.num 0) ∧
    jsTruthy (.num 0) = false ∧
    handleJoinGroup initState "s1" (.obj [("groupId", .num 0)]) =
      (initState, [.toSocket "s1" "error" (.obj [("message", .str "Group ID is required")])]) :=
  ⟨rfl, rfl,
    (claim_C4_amended initState "s1" (.obj [("groupId", .num 0)]) (.num 0) .undefined
      rfl rfl).1 rfl⟩

/- ===== Claim C1 ===== -/

/-- C1 counterexample: the envelope {event: "prescription.x", data: 1}
published on channel antrian.group.5 is multicast once to group_5 (bare
event name) by the antrian subscription, but the wildcard subscription
additionally multicasts it to the prescription room (the event-name
test in handleGeneralMessage fires before the channel test), so the
combined outcome is not only the single group multicast. -/
theorem claim_C1_counterexample :
    redisPublish
        ⟨[("group_5", ["a"]), ("prescription", ["b"])], [],
          [("a", ⟨0, "ip"⟩), ("b", ⟨1, "ip"⟩)], 2⟩
        (some (.obj [("event", .str "prescription.x"), ("data", .num 1)]))
        "antrian.group.5" =
      [.toRoom "group_5" (.str "prescription.x") (.num 1),
       .toRoom "prescription" (.str "antrian.group.5:prescription.x") (.num 1)] ∧
    roomSends
      (redisPublish
        ⟨[("group_5", ["a"]), ("prescription", ["b"])], [],
          [("a", ⟨0, "ip"⟩), ("b", ⟨1, "ip"⟩)], 2⟩
        (some (.obj [("event", .str "prescription.x"), ("data", .num 1)]))
        "antrian.group.5") "prescription" ≠ [] :=
  ⟨rfl, List.cons_ne_nil _ _⟩

/-- C1 amended: for a valid envelope on a group-pattern antrian channel
with a nonempty target room, the combined outcome of both
subscriptions is exactly one multicast of the bare event name to
group_<digits> and no global broadcast; the prescription room receives
nothing when the envelope's event name does not start with
"prescription.", and when it does start with that text the wildcard
subscription additionally sends exactly one channel-prefixed multicast
to the prescription room if that room currently has members, and
nothing if it is empty. -/
theorem roomSends_append (a b : List Emission) (r : String) :
    roomSends (a ++ b) r = roomSends a r ++ roomSends b r := by
  rw [roomSends, roomSends, roomSends, List.filter_append]

theorem roomSends_toRoom_self (r : String) (ev d : JsValue) :
    roomSends [.toRoom r ev d] r = [.toRoom r ev d] := by
  simp [roomSends]

theorem roomSends_toRoom_ne (r' r : String) (ev d : JsValue) (h : r' ≠ r) :
    roomSends [.toRoom r' ev d] r = [] := by
  simp [roomSends, h]

theorem globalSends_append (a b : List Emission) :
    globalSends (a ++ b) = globalSends a ++ globalSends b := by
  rw [globalSends, globalSends, globalSends, List.filter_append]

theorem globalSends_toRoom (r : String) (ev d : JsValue) :
    globalSends [.toRoom r ev d] = [] := rfl

theorem claim_C1_amended (st : ServerState) (msg : Option JsValue) (ch : String)
    (env : Envelope) (gid : String)
    (hdec : decodeEnvelope msg = some env)
    (hch : jsStartsWith ch "antrian." = true)
    (hg : extractGroupIdFromChannel ch = some gid)
    (hcount : getRoomClientCount st ("group_" ++ gid) ≠ 0) :
    roomSends (redisPublish st msg ch) ("group_" ++ gid) =
      [.toRoom ("group_" ++ gid) env.event env.data] ∧
    globalSends (redisPublish st msg ch) = [] ∧
    ((∀ e : String, env.event = .str e → jsStartsWith e "prescription." = false) →
      roomSends (redisPublish st msg ch) "prescription" = []) ∧
    (∀ e : String, env.event = .str e → jsStartsWith e "prescription." = true →
      roomSends (redisPublish st msg ch) "prescription" =
        (if getRoomClientCount st "prescription" = 0 then []
         else [.toRoom "prescription" (.str (ch ++ ":" ++ e)) env.data])) := by
  have hA : processMessage st msg ch true =
      [.toRoom ("group_" ++ gid) env.event env.data] := by
    rw [processMessage, hdec]
    show (match extractGroupIdFromChannel ch with
      | none => []
      | some groupId => broadcastToClients st ch env.event env.data groupId) = _
    rw [hg]
    show (if getRoomClientCount st ("group_" ++ gid) = 0 then []
      else [Emission.toRoom ("group_" ++ gid) env.event env.data]) = _
    rw [if_neg hcount]
  have hB : processMessage st msg ch false = handleGeneralMessage st ch env := by
    rw [processMessage, hdec]
    rfl
  have hpub : redisPublish st msg ch =
      [Emission.toRoom ("group_" ++ gid) env.event env.data] ++
        handleGeneralMessage st ch env := by
    rw [redisPublish, if_pos hch, hA, hB]
  have hGform : handleGeneralMessage st ch env = [] ∨
      ∃ e pay, env.event = .str e ∧ jsStartsWith e "prescription." = true ∧
        handleGeneralMessage st ch env = [.toRoom "prescription" pay env.data] := by
    cases hev : env.event with
    | str e =>
        have heq : handleGeneralMessage st ch env =
            (if jsStartsWith e "prescription." = true
              then broadcastToPrescriptionRoom st ch e env.data
              else if (!jsStartsWith ch "antrian.") = true
                then [.toAll (ch ++ ":" ++ e) env.data] else []) := by
          rw [handleGeneralMessage, hev]
        rcases Bool.eq_false_or_eq_true (jsStartsWith e "prescription.") with hp | hp
        · rw [heq, if_pos hp, broadcastToPrescriptionRoom]
          by_cases hc : getRoomClientCount st "prescription" = 0
          · left; rw [if_pos hc]
          · right
            exact ⟨e, .str (ch ++ ":" ++ e), rfl, hp, by rw [if_neg hc]⟩
        · left
          rw [heq, if_neg (by rw [hp]; exact Bool.false_ne_true),
            if_neg (by rw [hch]; simp)]
    | null => left; rw [handleGeneralMessage, hev]
    | undefined => left; rw [handleGeneralMessage, hev]
    | bool b => left; rw [handleGeneralMessage, hev]
    | num n => left; rw [handleGeneralMessage, hev]
    | obj fields => left; rw [handleGeneralMessage, hev]
  have hGgroup : roomSends (handleGeneralMessage st ch env) ("group_" ++ gid) = [] := by
    rcases hGform with h0 | ⟨e, pay, _, _, hG⟩
    · rw [h0]; rfl
    · rw [hG]
      exact roomSends_toRoom_ne _ _ _ _ (groupRoom_ne_prescription gid).symm
  have hGglobal : globalSends (handleGeneralMessage st ch env) = [] := by
    rcases hGform with h0 | ⟨e, pay, _, _, hG⟩
    · rw [h0]; rfl
    · rw [hG, globalSends_toRoom]
  refine ⟨?_, ?_, ?_, ?_⟩
  · rw [hpub, roomSends_append, roomSends_toRoom_self, hGgroup, List.append_nil]
  · rw [hpub, globalSends_append, globalSends_toRoom, hGglobal, List.append_nil]
  · intro hnp
    have h2 : roomSends (handleGeneralMessage st ch env) "prescription" = [] := by
      rcases hGform with h0 | ⟨e, pay, hev, hp, hG⟩
      · rw [h0]; rfl
      · rw [hnp e hev] at hp
        cases hp
    rw [hpub, roomSends_append, h2, List.append_nil]
    exact roomSends_toRoom_ne _ _ _ _ (groupRoom_ne_prescription gid)
  · intro e hev hp
    have heq : handleGeneralMessage st ch env =
        broadcastToPrescriptionRoom st ch e env.data := by
      rw [handleGeneralMessage, hev]
      show (if jsStartsWith e "prescription." = true
        then broadcastToPrescriptionRoom st ch e env.data
        else if (!jsStartsWith ch "antrian.") = true
          then [Emission.toAll (ch ++ ":" ++ e) env.data] else []) = _
      rw [if_pos hp]
    rw [hpub, roomSends_append, heq,
      roomSends_toRoom_ne _ _ _ _ (groupRoom_ne_prescription gid),
      broadcastToPrescriptionRoom]
    by_cases hc : getRoomClientCount st "prescription" = 0
    · rw [if_pos hc]
      rfl
    · rw [if_neg hc, roomSends_toRoom_self, List.nil_append]

/-- Witness for C1 amended at concrete states: a non-prescription event
gives exactly the group multicast, and a prescription-prefixed event on
the same kind of channel also gives the channel-prefixed multicast to a
nonempty prescription room. -/
theorem claim_C1_amended_witness :
    decodeEnvelope (some (.obj [("event", .str "queue.updated"), ("data", .num 1)])) =
      some ⟨.str "queue.updated", .num 1⟩ ∧
    jsStartsWith "antrian.group.5" "antrian." = true ∧
    extractGroupIdFromChannel "antrian.group.5" = some "5" ∧
    getRoomClientCount ⟨[("group_5", ["a"])], [], [("a", ⟨0, "ip"⟩)], 1⟩ "group_5" ≠ 0 ∧
    roomSends
        (redisPublish ⟨[("group_5", ["a"])], [], [("a", ⟨0, "ip"⟩)], 1⟩
          (some (.obj [("event", .str "queue.updated"), ("data", .num 1)]))
          "antrian.group.5") "group_5" =
      [.toRoom "group_5" (.str "queue.updated") (.num 1)] ∧
    roomSends
        (redisPublish
          ⟨[("group_5", ["a"]), ("prescription", ["b"])], [],
            [("a", ⟨0, "ip"⟩), ("b", ⟨1, "ip"⟩)], 2⟩
          (some (.obj [("event", .str "prescription.x"), ("data", .num 1)]))
          "antrian.group.5") "prescription" =
      [.toRoom "prescription" (.str "antrian.group.5:prescription.x") (.num 1)] :=
  ⟨rfl, by decide, by decide, by decide,
    (claim_C1_amended ⟨[("group_5", ["a"])], [], [("a", ⟨0, "ip"⟩)], 1⟩
      (some (.obj [("event", .str "queue.updated"), ("data", .num 1)]))
      "antrian.group.5" ⟨.str "queue.updated", .num 1⟩ "5"
      rfl (by decide) (by decide) (by decide)).1,
    by
      have h := (claim_C1_amended
        ⟨[("group_5", ["a"]), ("prescription", ["b"])], [],
          [("a", ⟨0, "ip"⟩), ("b", ⟨1, "ip"⟩)], 2⟩
        (some (.obj [("event", .str "prescription.x"), ("data", .num 1)]))
        "antrian.group.5" ⟨.str "prescription.x", .num 1⟩ "5"
        rfl (by decide) (by decide) (by decide)).2.2.2 "prescription.x" rfl (by decide)
      simpa using h⟩

/- ===== Claim C10 ===== -/

theorem extractAux_cons (c : Char) (rest : List Char) :
    extractGroupIdAux (c :: rest) =
      if groupPatAt (c :: rest) = true
      then some (((c :: rest).drop 14).takeWhile Char.isDigit)
      else extractGroupIdAux rest := rfl

theorem groupPatAt_nil : groupPatAt [] = false := rfl

theorem extractAux_none_iff (cs : List Char) :
    extractGroupIdAux cs = none ↔ ∀ n, groupPatAt (cs.drop n) = false := by
  induction cs with
  | nil =>
      constructor
      · intro _ n
        rw [List.drop_nil]
        exact groupPatAt_nil
      · intro _
        rfl
  | cons c rest ih =>
      rw [extractAux_cons]
      rcases Bool.eq_false_or_eq_true (groupPatAt (c :: rest)) with hp | hp
      case inl =>
        rw [if_pos hp]
        constructor
        · intro h
          exact Option.noConfusion h
        · intro h
          exfalso
          have h0 := h 0
          rw [List.drop_zero] at h0
          rw [hp] at h0
          cases h0
      case inr =>
        rw [if_neg (by rw [hp]; exact Bool.false_ne_true), ih]
        constructor
        · intro h n
          cases n with
          | zero =>
              rw [List.drop_zero]
              exact hp
          | succ n =>
              rw [List.drop_succ_cons]
              exact h n
        · intro h n
          have hn := h (n + 1)
          rwa [List.drop_succ_cons] at hn

theorem extractAux_some_first (cs ds : List Char)
    (h : extractGroupIdAux cs = some ds) :
    ∃ n, groupPatAt (cs.drop n) = true ∧
      (∀ m, m < n → groupPatAt (cs.drop m) = false) ∧
      ds = ((cs.drop n).drop 14).takeWhile Char.isDigit := by
  induction cs with
  | nil => exact Option.noConfusion h
  | cons c rest ih =>
      rw [extractAux_cons] at h
      rcases Bool.eq_false_or_eq_true (groupPatAt (c :: rest)) with hp | hp
      case inl =>
        rw [if_pos hp] at h
        have hds : ((c :: rest).drop 14).takeWhile Char.isDigit = ds := by injection h
        refine ⟨0, ?_, ?_, ?_⟩
        · rw [List.drop_zero]; exact hp
        · intro m hm; exact absurd hm (Nat.not_lt_zero m)
        · rw [List.drop_zero]; exact hds.symm
      case inr =>
        rw [if_neg (by rw [hp]; exact Bool.false_ne_true)] at h
        obtain ⟨n, h1, h2, h3⟩ := ih h
        refine ⟨n + 1, ?_, ?_, ?_⟩
        · rwa [List.drop_succ_cons]
        · intro m hm
          cases m with
          | zero => rw [List.drop_zero]; exact hp
          | succ m =>
              rw [List.drop_succ_cons]
              exact h2 m (Nat.lt_of_succ_lt_succ hm)
        · rwa [List.drop_succ_cons]

/-- C10: extractGroupIdFromChannel is an unanchored search: it returns
null exactly when no position of the channel carries the text
antrian.group. followed by a digit; when some position does, it returns
the maximal digit run at the first such position, so the channel need
not be exactly the pattern; and any such channel delivered on the
antrian subscription with a valid envelope and a nonempty target room
is multicast to that group's room. -/
theorem claim_C10 :
    (∀ ch : String, extractGroupIdFromChannel ch = none ↔ ¬ HasGroupChanPat ch) ∧
    (∀ ch g : String, extractGroupIdFromChannel ch = some g →
      ∃ n, groupPatAt (ch.toList.drop n) = true ∧
        (∀ m, m < n → groupPatAt (ch.toList.drop m) = false) ∧
        g = String.mk (((ch.toList.drop n).drop 14).takeWhile Char.isDigit)) ∧
    (∀ (st : ServerState) (ch g : String) (msg : JsValue) (env : Envelope),
      extractGroupIdFromChannel ch = some g →
      decodeEnvelope (some msg) = some env →
      getRoomClientCount st ("group_" ++ g) ≠ 0 →
      processMessage st (some msg) ch true =
        [.toRoom ("group_" ++ g) env.event env.data]) := by
  refine ⟨?_, ?_, ?_⟩
  · intro ch
    rw [extractGroupIdFromChannel, Option.map_eq_none', extractAux_none_iff,
      HasGroupChanPat]
    constructor
    · intro h hex
      obtain ⟨n, hn⟩ := hex
      rw [h n] at hn
      cases hn
    · intro h n
      rcases Bool.eq_false_or_eq_true (groupPatAt (ch.toList.drop n)) with hp | hp
      · exact absurd ⟨n, hp⟩ h
      · exact hp
  · intro ch g h
    rw [extractGroupIdFromChannel, Option.map_eq_some'] at h
    obtain ⟨ds, hds, hg⟩ := h
    obtain ⟨n, h1, h2, h3⟩ := extractAux_some_first ch.toList ds hds
    exact ⟨n, h1, h2, by rw [← hg, h3]⟩
  · intro st ch g msg env hg hdec hcount
    rw [processMessage, hdec]
    show (match extractGroupIdFromChannel ch with
      | none => []
      | some groupId => broadcastToClients st ch env.event env.data groupId) = _
    rw [hg]
    show (if getRoomClientCount st ("group_" ++ g) = 0 then []
      else [Emission.toRoom ("group_" ++ g) env.event env.data]) = _
    rw [if_neg hcount]

/-- Witness for C10 on the channel antrian.group.7.status, which is not
exactly the pattern but contains it. -/
theorem claim_C10_witness :
    extractGroupIdFromChannel "antrian.group.7.status" = some "7" ∧
    (∃ n, groupPatAt ("antrian.group.7.status".toList.drop n) = true ∧
      (∀ m, m < n → groupPatAt ("antrian.group.7.status".toList.drop m) = false) ∧
      "7" = String.mk ((("antrian.group.7.status".toList.drop n).drop 14).takeWhile
        Char.isDigit)) ∧
    processMessage ⟨[("group_7", ["a"])], [], [], 0⟩
        (some (.obj [("event", .str "ev"), ("data", .num 1)]))
        "antrian.group.7.status" true =
      [.toRoom "group_7" (.str "ev") (.num 1)] :=
  ⟨by decide,
    claim_C10.2.1 "antrian.group.7.status" "7" (by decide),
    claim_C10.2.2 ⟨[("group_7", ["a"])], [], [], 0⟩ "antrian.group.7.status" "7"
      (.obj [("event", .str "ev"), ("data", .num 1)]) ⟨.str "ev", .num 1⟩
      (by decide) rfl (by decide)⟩

/- ===== Claim C9 ===== -/

/-- C9: in the legacy entry point, every client packet is rebroadcast
verbatim (same event name, same argument list) to all other connected
clients by the universal onAny listener, and this broadcast comes first,
before the event-specific handling; the five named events additionally
keep their event-specific replies, shown here explicitly. -/
theorem claim_C9 (st : Legacy.State) (sid eventName : String) (args : List JsValue) :
    (Legacy.dispatch st sid eventName args).2.head? =
      some (.broadcastExcept sid eventName args) ∧
    (Legacy.dispatch st sid eventName args).2 =
      .broadcastExcept sid eventName args ::
        (Legacy.specificStep (Legacy.onAnyStep st sid eventName args).1 sid
          eventName args).2 ∧
    (Legacy.dispatch st sid "ping" []).2 =
      [.broadcastExcept sid "ping" [],
       .toSocket sid "pong" (.obj [("timestamp", .num st.clock)])] ∧
    (Legacy.dispatch st sid "join-prescription" []).2 =
      [.broadcastExcept sid "join-prescription" [],
       .toSocket sid "prescription-joined"
         (.obj [("message", .str "Successfully joined prescription room"),
                ("socketId", .str sid), ("roomName", .str "prescription"),
                ("timestamp", .num st.clock)])] ∧
    (Legacy.dispatch st sid "leave-prescription" []).2 =
      [.broadcastExcept sid "leave-prescription" [],
       .toSocket sid "prescription-left"
         (.obj [("message", .str "Successfully left prescription room"),
                ("socketId", .str sid), ("roomName", .str "prescription"),
                ("timestamp", .num st.clock)])] ∧
    (Legacy.dispatch st sid "join-group" [.obj [("groupId", .str "7")]]).2 =
      [.broadcastExcept sid "join-group" [.obj [("groupId", .str "7")]],
       .toSocket sid "joined-group"
         (.obj [("groupId", .str "7"), ("groupName", .undefined),
                ("roomName", .str "group_7"), ("timestamp", .num st.clock)])] ∧
    (Legacy.dispatch st sid "leave-group" [.obj [("groupId", .str "7")]]).2 =
      [.broadcastExcept sid "leave-group" [.obj [("groupId", .str "7")]],
       .toSocket sid "left-group"
         (.obj [("groupId", .str "7"), ("roomName", .str "group_7"),
                ("timestamp", .num st.clock)])] :=
  ⟨rfl, rfl, rfl, rfl, rfl, rfl, rfl⟩

/- ===== Claim C2 ===== -/

/-- C2 counterexample: after the completed operations connect then
join-group 7 with no groupName, room group_7 has one member but no
permalink entry for 7 exists, so the claimed biconditional fails. -/
theorem claim_C2_counterexample :
    ¬ PermalinkLifecycleInv (runOps initState
      [.connect "s1" "ip1", .joinGroup "s1" (.obj [("groupId", .str "7")])]) := by
  intro h
  have h7 := (h "7").mpr (by decide)
  exact absurd h7 (by decide)

/-- C2 amended: the permalink/membership connection that does hold.
After a join-group with a truthy groupId and groupName, the permalink
exists and the joined room is nonempty.  After an explicit leave-group,
a surviving permalink for the left group implies the room kept a
member.  The disconnect-triggered cleanup sweep, however, is a no-op in
every adapter state whose materialized rooms are nonempty (which
Socket.IO guarantees), so it can never restore the biconditional; and
joins without a groupName create members without a permalink, so the
biconditional itself is false. -/
theorem claim_C2_amended :
    (∀ (st : ServerState) (sid : String) (data gid gname : JsValue),
      jsGetField data "groupId" = some gid →
      jsGetField data "groupName" = some gname →
      jsTruthy gid = true → jsTruthy gname = true →
      ((alistGet (handleJoinGroup st sid data).1.permalinks (jsToString gid)).isSome = true ∧
        roomMembers (handleJoinGroup st sid data).1 ("group_" ++ jsToString gid) ≠ [])) ∧
    (∀ (st : ServerState) (sid : String) (data gid : JsValue),
      WF st → jsGetField data "groupId" = some gid →
      (alistGet (handleLeaveGroup st sid data).1.permalinks (jsToString gid)).isSome = true →
      roomMembers (handleLeaveGroup st sid data).1 ("group_" ++ jsToString gid) ≠ []) ∧
    (∀ st : ServerState, (∀ p ∈ st.rooms, p.2 ≠ []) → cleanupEmptyGroups st = st) := by
  refine ⟨?_, ?_, ?_⟩
  · intro st sid data gid gname hg hn ht hgn
    rw [handleJoinGroup_truthy st sid data gid gname hg hn ht]
    constructor
    · show (alistGet (if jsTruthy gname = true
          then alistSet st.permalinks (jsToString gid) gname
          else st.permalinks) (jsToString gid)).isSome = true
      rw [if_pos hgn, alistGet_set_self]
      rfl
    · exact List.ne_nil_of_mem (joinGroup_mem_self st sid gid)
  · intro st sid data gid hWF hg hsome
    obtain ⟨hnd, hne, hvn, hpl⟩ := hWF
    rw [handleLeaveGroup_some st sid data gid hg] at hsome ⊢
    by_cases hc : getRoomClientCount
        { st with rooms := socketLeave st.rooms sid ("group_" ++ jsToString gid) }
        ("group_" ++ jsToString gid) = 0
    · exfalso
      rw [show ({ st with
            rooms := socketLeave st.rooms sid ("group_" ++ jsToString gid),
            permalinks :=
              if getRoomClientCount
                    { st with rooms := socketLeave st.rooms sid ("group_" ++ jsToString gid) }
                    ("group_" ++ jsToString gid) = 0 then
                alistDel st.permalinks (jsToString gid)
              else st.permalinks } : ServerState).permalinks =
          alistDel st.permalinks (jsToString gid) from by rw [if_pos hc]] at hsome
      rw [alistGet_del_self st.permalinks (jsToString gid) hpl] at hsome
      exact Bool.false_ne_true hsome
    · intro hnil
      apply hc
      show (roomMembers { st with
          rooms := socketLeave st.rooms sid ("group_" ++ jsToString gid) }
          ("group_" ++ jsToString gid)).length = 0
      rw [show roomMembers { st with
          rooms := socketLeave st.rooms sid ("group_" ++ jsToString gid) }
          ("group_" ++ jsToString gid) =
          roomMembers { st with
            rooms := socketLeave st.rooms sid ("group_" ++ jsToString gid),
            permalinks :=
              if getRoomClientCount
                    { st with rooms := socketLeave st.rooms sid ("group_" ++ jsToString gid) }
                    ("group_" ++ jsToString gid) = 0 then
                alistDel st.permalinks (jsToString gid)
              else st.permalinks } ("group_" ++ jsToString gid) from rfl]
      rw [hnil]
      rfl
  · intro st hne
    rw [cleanupEmptyGroups]
    have hid : ∀ (L : List String) (pl : List (String × JsValue)),
        (∀ r ∈ L, getRoomClientCount st r ≠ 0) →
        L.foldl (fun pl roomName =>
          if getRoomClientCount st roomName = 0 then alistDel pl (dropGroupTag roomName)
          else pl) pl = pl := by
      intro L
      induction L with
      | nil => intro pl _; rfl
      | cons r L' ih =>
          intro pl h
          rw [List.foldl_cons, if_neg (h r (List.mem_cons_self _ _))]
          exact ih pl (fun r' hr' => h r' (List.mem_cons_of_mem _ hr'))
    rw [hid _ _ ?_]
    · intro r hr
      have hrk : r ∈ st.rooms.map Prod.fst := (List.mem_filter.mp hr).1
      obtain ⟨ms, hms⟩ := Option.isSome_iff_exists.mp ((alistGet_isSome_iff _ _).mpr hrk)
      have hmem : (r, ms) ∈ st.rooms := alistGet_some_mem hms
      have hms_ne : ms ≠ [] := hne (r, ms) hmem
      rw [getRoomClientCount, roomMembers_def, membersOf, hms]
      simpa using fun hlen => hms_ne (List.length_eq_zero.mp hlen)

/-- Witness for C2 amended: the three components applied at concrete
states. -/
theorem claim_C2_amended_witness :
    ((alistGet (handleJoinGroup initState "s1"
        (.obj [("groupId", .str "7"), ("groupName", .str "Poli")])).1.permalinks
        "7").isSome = true ∧
      roomMembers (handleJoinGroup initState "s1"
        (.obj [("groupId", .str "7"), ("groupName", .str "Poli")])).1 "group_7" ≠ []) ∧
    roomMembers (handleLeaveGroup ⟨[("group_2", ["a", "b"])], [("2", .str "y")], [], 0⟩
        "a" (.obj [("groupId", .str "2")])).1 "group_2" ≠ [] ∧
    cleanupEmptyGroups ⟨[("group_1", ["a"])], [("1", .str "x")], [], 0⟩ =
      ⟨[("group_1", ["a"])], [("1", .str "x")], [], 0⟩ :=
  ⟨claim_C2_amended.1 initState "s1"
      (.obj [("groupId", .str "7"), ("groupName", .str "Poli")]) (.str "7") (.str "Poli")
      rfl rfl (by decide) (by decide),
    claim_C2_amended.2.1 ⟨[("group_2", ["a", "b"])], [("2", .str "y")], [], 0⟩ "a"
      (.obj [("groupId", .str "2")]) (.str "2")
      (by refine ⟨?_, ?_, ?_, ?_⟩ <;> decide) rfl (by decide),
    claim_C2_amended.2.2 ⟨[("group_1", ["a"])], [("1", .str "x")], [], 0⟩ (by decide)⟩

/- ===== Claim C5 ===== -/

/-- C5 counterexample: with one client in group_x (a non-numeric group
identifier, parseInt NaN) and one in group_1, the snapshot keeps the
NaN entry in place (the comparator result NaN is treated as equal by
SortCompare and the sort is stable), so the returned list, whose first
entry has no numeric group identifier, is not sorted ascending by
numeric group identifier. -/
theorem claim_C5_counterexample :
    ¬ SortedByNumericId (getActiveDisplays
      ⟨[("group_x", ["a"]), ("group_1", ["b"])], [],
        [("a", ⟨0, "ip"⟩), ("b", ⟨1, "ip"⟩)], 2⟩) := by
  unfold SortedByNumericId
  decide

theorem stableInsert_mem {α : Type} (le : α → α → Bool) (x y : α) (l : List α) :
    y ∈ stableInsert le x l ↔ y = x ∨ y ∈ l := by
  induction l with
  | nil => simp [stableInsert]
  | cons z zs ih =>
      rw [stableInsert]
      by_cases hle : le z x = true
      · rw [if_pos hle]
        simp only [List.mem_cons, ih]
        tauto
      · rw [if_neg hle]
        simp only [List.mem_cons]

theorem stableSortBy_mem {α : Type} (le : α → α → Bool) (l : List α) (x : α) :
    x ∈ stableSortBy le l ↔ x ∈ l := by
  suffices h : ∀ acc, x ∈ l.foldl (fun acc y => stableInsert le y acc) acc ↔
      x ∈ acc ∨ x ∈ l by
    rw [stableSortBy, h []]
    simp
  induction l with
  | nil => intro acc; simp
  | cons y ys ih =>
      intro acc
      rw [List.foldl_cons, ih, stableInsert_mem]
      simp only [List.mem_cons]
      tauto

theorem stableInsert_chain' {α : Type} (le : α → α → Bool)
    (htot : ∀ a b, le a b = true ∨ le b a = true) (x : α) (l : List α)
    (h : l.Chain' (fun a b => le a b = true)) :
    (stableInsert le x l).Chain' (fun a b => le a b = true) := by
  induction l with
  | nil => simp [stableInsert]
  | cons z zs ih =>
      rw [stableInsert]
      by_cases hle : le z x = true
      · rw [if_pos hle]
        rw [List.chain'_cons'] at h
        have hzs := ih h.2
        rw [List.chain'_cons']
        refine ⟨?_, hzs⟩
        intro b hb
        cases zs with
        | nil =>
            rw [show stableInsert le x ([] : List α) = [x] from rfl] at hb
            simp at hb
            rw [← hb]
            exact hle
        | cons w ws =>
            rw [stableInsert] at hb
            by_cases hw : le w x = true
            · rw [if_pos hw] at hb
              simp at hb
              rw [← hb]
              exact h.1 w rfl
            · rw [if_neg hw] at hb
              simp at hb
              rw [← hb]
              exact hle
      · rw [if_neg hle]
        rw [List.chain'_cons']
        refine ⟨?_, h⟩
        intro b hb
        simp at hb
        rw [← hb]
        rcases htot x z with hxz | hzx
        · exact hxz
        · exact absurd hzx hle

theorem stableSortBy_chain' {α : Type} (le : α → α → Bool)
    (htot : ∀ a b, le a b = true ∨ le b a = true) (l : List α) :
    (stableSortBy le l).Chain' (fun a b => le a b = true) := by
  suffices h : ∀ acc, acc.Chain' (fun a b => le a b = true) →
      (l.foldl (fun acc y => stableInsert le y acc) acc).Chain'
        (fun a b => le a b = true) by
    exact h [] List.chain'_nil
  induction l with
  | nil => intro acc hacc; exact hacc
  | cons y ys ih =>
      intro acc hacc
      rw [List.foldl_cons]
      exact ih _ (stableInsert_chain' le htot y acc hacc)

theorem displayLe_total : ∀ a b : Option Int, displayLe a b = true ∨ displayLe b a = true := by
  intro a b
  cases a with
  | none => left; rfl
  | some m =>
      cases b with
      | none => left; rfl
      | some n =>
          rw [displayLe, displayLe]
          rcases le_total m n with h | h
          · left; simpa using sub_nonpos.mpr h
          · right; simpa using sub_nonpos.mpr h

theorem chain'_to_pairwise_numeric (l : List DisplayEntry)
    (hsome : ∀ e ∈ l, (e.groupNumber).isSome = true)
    (hch : l.Chain' (fun a b => displayLe a.groupNumber b.groupNumber = true)) :
    l.Pairwise (fun a b => numericLe a.groupNumber b.groupNumber = true) := by
  induction l with
  | nil => exact List.Pairwise.nil
  | cons a l ih =>
      rw [List.chain'_cons'] at hch
      have hp := ih (fun e he => hsome e (List.mem_cons_of_mem _ he)) hch.2
      refine List.Pairwise.cons ?_ hp
      intro b hb
      obtain ⟨ma, hma⟩ := Option.isSome_iff_exists.mp (hsome a (List.mem_cons_self _ _))
      have hnum : ∀ c ∈ l, ∃ mc, c.groupNumber = some mc := fun c hc =>
        Option.isSome_iff_exists.mp (hsome c (List.mem_cons_of_mem _ hc))
      cases l with
      | nil => cases hb
      | cons c cs =>
          obtain ⟨mc, hmc⟩ := hnum c (List.mem_cons_self _ _)
          have hac : ma ≤ mc := by
            have h1 := hch.1 c rfl
            rw [hma, hmc, displayLe] at h1
            simpa [sub_nonpos] using h1
          rcases List.mem_cons.mp hb with hbc | hbc
          · subst hbc
            rw [hma, hmc, numericLe]
            simpa using hac
          · obtain ⟨mb, hmb⟩ := hnum b (List.mem_cons_of_mem _ hbc)
            have hcb := List.pairwise_cons.mp hp
            have h2 := hcb.1 b hbc
            rw [hmc, hmb, numericLe] at h2
            rw [hma, hmb, numericLe]
            simp only [decide_eq_true_eq] at h2 ⊢
            exact le_trans hac h2

/-- C5 amended: for every well-formed registry state the snapshot
returns exactly the group rooms with at least one current member, each
entry carrying the member count, per-member connection metadata, the
parseInt group number and the stored-or-default permalink; and the
returned list is sorted ascending by numeric group identifier whenever
every materialized group identifier is numeric.  (With a non-numeric
identifier the comparator returns NaN, treated as equal, so the
numeric order is not guaranteed -- see the counterexample.) -/
theorem claim_C5_amended (st : ServerState) (hWF : WF st) :
    (∀ r : String, jsStartsWith r "group_" = true → roomMembers st r ≠ [] →
      ∃ e ∈ getActiveDisplays st, e.roomName = r) ∧
    (∀ e ∈ getActiveDisplays st,
      jsStartsWith e.roomName "group_" = true ∧
      roomMembers st e.roomName ≠ [] ∧
      e.clientCount = (roomMembers st e.roomName).length ∧
      e.clients = (roomMembers st e.roomName).map (fun sid =>
        ClientDetail.mk sid
          ((alistGet st.activeConnections sid).map (fun c => c.connectedAt))
          ((alistGet st.activeConnections sid).map (fun c => c.ipAddress))) ∧
      e.groupNumber = jsParseInt (dropGroupTag e.roomName) ∧
      e.permalink = (match alistGet st.permalinks (dropGroupTag e.roomName) with
        | some v => if jsTruthy v then v
            else .str ("/display/group/" ++ dropGroupTag e.roomName)
        | none => .str ("/display/group/" ++ dropGroupTag e.roomName))) ∧
    ((∀ r ∈ st.rooms.map Prod.fst, jsStartsWith r "group_" = true →
        (jsParseInt (dropGroupTag r)).isSome = true) →
      SortedByNumericId (getActiveDisplays st)) := by
  obtain ⟨hnd, hne, hvn, hpl⟩ := hWF
  have hkey_ne : ∀ r, r ∈ st.rooms.map Prod.fst → roomMembers st r ≠ [] := by
    intro r hr
    obtain ⟨ms, hms⟩ := Option.isSome_iff_exists.mp ((alistGet_isSome_iff _ _).mpr hr)
    rw [roomMembers_def, membersOf, hms]
    simpa using hne (r, ms) (alistGet_some_mem hms)
  have hactive : ∀ r, r ∈ st.rooms.map Prod.fst → (displayEntryOf st r).isActive = true := by
    intro r hr
    show decide ((roomMembers st r).length > 0) = true
    simp only [decide_eq_true_eq]
    exact List.length_pos.mpr (hkey_ne r hr)
  have hmem : ∀ e, e ∈ getActiveDisplays st ↔
      ∃ r, (r ∈ st.rooms.map Prod.fst ∧ jsStartsWith r "group_" = true) ∧
        displayEntryOf st r = e := by
    intro e
    show e ∈ stableSortBy (fun a b => displayLe a.groupNumber b.groupNumber)
      ((((st.rooms.map (fun p => p.1)).filter
        (fun r => jsStartsWith r "group_")).map (displayEntryOf st)).filter
        (fun e => e.isActive)) ↔ _
    rw [stableSortBy_mem, List.mem_filter, List.mem_map]
    constructor
    · rintro ⟨⟨r, hr, rfl⟩, _⟩
      have hrf := List.mem_filter.mp hr
      exact ⟨r, ⟨hrf.1, hrf.2⟩, rfl⟩
    · rintro ⟨r, ⟨hrk, hrp⟩, rfl⟩
      exact ⟨⟨r, List.mem_filter.mpr ⟨hrk, hrp⟩, rfl⟩, hactive r hrk⟩
  refine ⟨?_, ?_, ?_⟩
  · intro r hpre hne'
    have hk : r ∈ st.rooms.map Prod.fst := by
      rw [← alistGet_isSome_iff]
      cases hg : alistGet st.rooms r with
      | none =>
          exfalso
          apply hne'
          rw [roomMembers_def, membersOf, hg]
          rfl
      | some ms => rfl
    exact ⟨displayEntryOf st r, (hmem _).mpr ⟨r, ⟨hk, hpre⟩, rfl⟩, rfl⟩
  · intro e he
    obtain ⟨r, ⟨hrk, hrp⟩, rfl⟩ := (hmem e).mp he
    exact ⟨hrp, hkey_ne r hrk, rfl, rfl, rfl, rfl⟩
  · intro hnum
    have hsome : ∀ e ∈ getActiveDisplays st, (e.groupNumber).isSome = true := by
      intro e he
      obtain ⟨r, ⟨hrk, hrp⟩, rfl⟩ := (hmem e).mp he
      exact hnum r hrk hrp
    have hchain : (getActiveDisplays st).Chain'
        (fun a b => displayLe a.groupNumber b.groupNumber = true) := by
      show (stableSortBy (fun a b => displayLe a.groupNumber b.groupNumber)
        ((((st.rooms.map (fun p => p.1)).filter
          (fun r => jsStartsWith r "group_")).map (displayEntryOf st)).filter
          (fun e => e.isActive))).Chain' _
      exact stableSortBy_chain'
        (fun (a b : DisplayEntry) => displayLe a.groupNumber b.groupNumber)
        (fun (a b : DisplayEntry) => displayLe_total a.groupNumber b.groupNumber) _
    exact chain'_to_pairwise_numeric _ hsome hchain

/-- Witness for C5 amended at a concrete two-group state with numeric
identifiers. -/
theorem claim_C5_amended_witness :
    WF ⟨[("group_3", ["a"]), ("group_1", ["b"])], [],
        [("a", ⟨0, "ip"⟩), ("b", ⟨1, "ip"⟩)], 2⟩ ∧
    SortedByNumericId (getActiveDisplays
      ⟨[("group_3", ["a"]), ("group_1", ["b"])], [],
        [("a", ⟨0, "ip"⟩), ("b", ⟨1, "ip"⟩)], 2⟩) :=
  ⟨by refine ⟨?_, ?_, ?_, ?_⟩ <;> decide,
    (claim_C5_amended ⟨[("group_3", ["a"]), ("group_1", ["b"])], [],
        [("a", ⟨0, "ip"⟩), ("b", ⟨1, "ip"⟩)], 2⟩
      (by refine ⟨?_, ?_, ?_, ?_⟩ <;> decide)).2.2 (by decide)⟩
